import Mathlib

/-!
# Overlay renderer (`vision/shared/Visualizer.cpp`): shallow embedding

Conventions of the embedding.

* C++ `float` / `double` values are modelled by the rationals (`ℚ`) they denote.  In the
  colour ramps and in the computation of the overlay size every arithmetic result is
  rounded to the format it is computed in (`fl32`, `fl64`: round to nearest, ties to even,
  with a significand of 24 or 53 bits; the exponent range is not bounded, so overflow and
  underflow are outside the model).  The other operations on floating values are modelled
  without rounding.
* C++ `int` values are modelled by `Int` (no overflow); conversions `int → float → int`
  are exact.
* A conversion of a floating value to `int` truncates toward zero (`truncToInt`).
* Drawing on the image is modelled by the ordered list of drawing primitives issued.
-/

namespace Viz

/-! ## Numeric conversions -/

/-- Conversion of a floating value to `int`: truncation toward zero. -/
def truncToInt (q : ℚ) : Int :=
  if 0 ≤ q then ⌊q⌋ else ⌈q⌉

/-- The C library `round` followed by the conversion to `int`: nearest integer,
halves away from zero. -/
def cRound (q : ℚ) : Int :=
  if 0 ≤ q then ⌊q + 1 / 2⌋ else ⌈q - 1 / 2⌉

/-- Rounding of a rational to the nearest integer, ties to the even one. -/
def roundHalfEven (x : ℚ) : Int :=
  let f := ⌊x⌋
  let r := x - (f : ℚ)
  if r < 1 / 2 then f else if 1 / 2 < r then f + 1 else if f % 2 = 0 then f else f + 1

/-- Rounding of a rational to the nearest binary floating-point number with `mant`
fraction bits (a significand of `mant + 1` bits), ties to even: with `2 ^ e ≤ |x| <
2 ^ (e + 1)` the result is the multiple of `2 ^ (e - mant)` nearest to `x`. -/
def roundFloat (mant : Nat) (x : ℚ) : ℚ :=
  let e := Int.log 2 |x|
  let ulp : ℚ := (2 : ℚ) ^ (e - (mant : Int))
  (roundHalfEven (x / ulp) : ℚ) * ulp

/-- Rounding of an arithmetic result to `float` (IEEE 754 binary32). -/
def fl32 (x : ℚ) : ℚ := roundFloat 23 x

/-- Rounding of an arithmetic result to `double` (IEEE 754 binary64). -/
def fl64 (x : ℚ) : ℚ := roundFloat 52 x

/-- Conversion of a floating value to `unsigned char`: truncation, modulo 256. -/
def toUchar (q : ℚ) : Fin 256 :=
  ⟨(truncToInt q).toNat % 256, Nat.mod_lt _ (by decide)⟩

/-! ## Geometry and colours -/

/-- A `cv::Point2f`. -/
structure Point2f where
  x : ℚ
  y : ℚ
  deriving DecidableEq

/-- A `cv::Point2i`. -/
structure Point2i where
  x : Int
  y : Int
  deriving DecidableEq

/-- A `cv::Rect`. -/
structure Rect where
  x : Int
  y : Int
  width : Int
  height : Int
  deriving DecidableEq

/-- A `cv::Size`. -/
structure Size where
  width : Int
  height : Int
  deriving DecidableEq

/-- A `cv::Scalar` used as a colour, channels in the order (B, G, R).  Every colour built
in `Visualizer.cpp` has integral channels. -/
structure Scalar where
  b : Int
  g : Int
  r : Int
  deriving DecidableEq

/-! ## Color generators -/

/-- Class `ColorgenRedGreen`: the two end points of the ramp. -/
structure ColorgenRedGreen where
  red_val_ : ℚ
  green_val_ : ℚ

/-- The value `norm_val` of `ColorgenRedGreen::operator()` after the two clamping
assignments.  The two differences and the quotient are `float` operations. -/
def ColorgenRedGreen.normVal (gen : ColorgenRedGreen) (val : ℚ) : ℚ :=
  let norm_val := fl32 (fl32 (val - gen.red_val_) / fl32 (gen.green_val_ - gen.red_val_))
  let norm_val := if norm_val < 0 then 0 else norm_val
  if norm_val > 1 then 1 else norm_val

/-- `ColorgenRedGreen::operator()`.  The product `norm_val * 255` is a `float` operation;
`(1.0 - norm_val) * 255` is computed in `double`. -/
def ColorgenRedGreen.apply (gen : ColorgenRedGreen) (val : ℚ) : Scalar :=
  let norm_val := gen.normVal val
  let B : Int := 0
  let G : Int := truncToInt (fl32 (norm_val * 255))
  let R : Int := truncToInt (fl64 (fl64 (1 - norm_val) * 255))
  ⟨B, G, R⟩

/-- Class `ColorgenLinear`. -/
structure ColorgenLinear where
  val1_ : ℚ
  val2_ : ℚ
  color1_ : Scalar
  color2_ : Scalar

/-- One channel of `ColorgenLinear::operator()`:
`color1_.val[k] * (1.0f - norm_val) + color2_.val[k] * norm_val`, where the difference is
a `float` operation and the products and the sum are `double` operations. -/
def ColorgenLinear.channel (c1 c2 : Int) (norm_val : ℚ) : Int :=
  truncToInt (fl64 (fl64 ((c1 : ℚ) * fl32 (1 - norm_val)) + fl64 ((c2 : ℚ) * norm_val)))

/-- `ColorgenLinear::operator()`. -/
def ColorgenLinear.apply (gen : ColorgenLinear) (val : ℚ) : Scalar :=
  let norm_val := fl32 (fl32 (val - gen.val1_) / fl32 (gen.val2_ - gen.val1_))
  let B := ColorgenLinear.channel gen.color1_.b gen.color2_.b norm_val
  let G := ColorgenLinear.channel gen.color1_.g gen.color2_.g norm_val
  let R := ColorgenLinear.channel gen.color1_.r gen.color2_.r norm_val
  ⟨B, G, R⟩

/-! ## Drawing primitives -/

/-- The OpenCV calls that change the image, in the order they are issued. -/
inductive Prim where
  /-- `cv::addWeighted(color, alpha, roi, 1.0 - alpha, 0.0, roi)` on `roi = img(rect)`. -/
  | blend (roi : Rect) (alpha : ℚ) (colour : Scalar)
  /-- `cv::putText(img, text, org, FONT_HERSHEY_SIMPLEX, 0.5f, colour, thickness)`. -/
  | putText (text : String) (org : Point2f) (colour : Scalar) (thickness : Nat)
  deriving DecidableEq

/-- Row height of the stacked metrics (`const int spacing = 20`). -/
def spacing : Int := 20

/-- Default text colour, `cv::Scalar(255, 255, 255)`. -/
def white : Scalar := ⟨255, 255, 255⟩

/-- Default text outline colour, `cv::Scalar(50, 50, 50)`. -/
def outline : Scalar := ⟨50, 50, 50⟩

/-- Colour of the unfilled gauge blocks, `cv::Scalar(186, 186, 186)`. -/
def gray : Scalar := ⟨186, 186, 186⟩

/-- The string that `drawText` renders: `label + value` with `label = name + ": "`. -/
def drawTextString (name value : String) : String :=
  (name ++ ": ") ++ value

/-- The position `display_loc` at which `drawText` renders its string.  The parameter
`textWidth` stands for the width returned by `cv::getTextSize`. -/
def drawTextLoc (textWidth : String → Int) (name : String) (loc : Point2f)
    (align_right : Bool) : Point2f :=
  let block_width : Int := 8
  let margin : Int := 2
  let block_size : Int := 10
  let max_blocks : Int := 100 / block_size
  let label := name ++ ": "
  if align_right then
    let x1 := loc.x - ((margin + block_width) * max_blocks : Int)
    ⟨x1 - (textWidth label : Int), loc.y⟩
  else loc

/-- `Visualizer::drawText`. -/
def drawText (textWidth : String → Int) (name value : String) (loc : Point2f)
    (align_right : Bool) (color : Scalar) (bg_color : Scalar) : List Prim :=
  let display_loc := drawTextLoc textWidth name loc align_right
  [Prim.putText (drawTextString name value) display_loc bg_color 5,
   Prim.putText (drawTextString name value) display_loc color 1]

/-- The column of the right edge of the string rendered by `drawText`: the start column
`display_loc.x` plus the measured width of the whole rendered string. -/
def drawTextRightEdge (textWidth : String → Int) (name value : String) (loc : Point2f)
    (align_right : Bool) : ℚ :=
  (drawTextLoc textWidth name loc align_right).x
    + ((textWidth (drawTextString name value) : Int) : ℚ)

/-- The variable `blocks` of `drawEqualizer`: `round(value / block_size)`. -/
def equalizerBlocks (value : ℚ) : Int :=
  let block_size : Int := 10
  cRound (value / block_size)

/-- The rectangle computed for one block of the gauge from the running `i`, and `j`. -/
def blockRect (imgW imgH i j : Int) : Rect :=
  let block_width : Int := 8
  let block_height : Int := 10
  let ii := max i 0
  let jj := max j 0
  let width := min block_width (imgW - ii)
  let height := min block_height (imgH - jj)
  ⟨ii, jj, width, height⟩

/-- The `for` loop of `drawEqualizer`.  The first argument counts the iterations left,
`x` is the loop index and `i` the running column.  A block whose clipped width or height is
negative is passed over by `continue`, which also passes over the update of `i`. -/
def equalizerLoop (imgW imgH j blocks : Int) (align_right : Bool) (color : Scalar) :
    Nat → Int → Int → List Prim
  | 0, _, _ => []
  | n + 1, x, i =>
    let block_width : Int := 8
    let margin : Int := 2
    let rect := blockRect imgW imgH i j
    if rect.height < 0 ∨ rect.width < 0 then
      equalizerLoop imgW imgH j blocks align_right color n (x + 1) i
    else
      let alpha : ℚ := if x ≥ blocks then 3 / 10 else 8 / 10
      let scalar_clr := if x ≥ blocks then gray else color
      Prim.blend rect alpha scalar_clr ::
        equalizerLoop imgW imgH j blocks align_right color n (x + 1)
          (i + (if align_right then -(margin + block_width) else margin + block_width))

/-- The blocks drawn by `Visualizer::drawEqualizer` on an image of size `imgW × imgH`. -/
def drawEqualizerBlocks (imgW imgH : Int) (value : ℚ) (loc : Point2f) (align_right : Bool)
    (color : Scalar) : List Prim :=
  let block_size : Int := 10
  let blocks := equalizerBlocks value
  let i := truncToInt loc.x
  let j := truncToInt (loc.y - 10)
  equalizerLoop imgW imgH j blocks align_right color (100 / block_size).toNat 0 i

/-- The label that `drawEqualizer` writes after the blocks. -/
def drawEqualizerLabel (textWidth : String → Int) (name : String) (loc : Point2f)
    (align_right : Bool) : List Prim :=
  let block_width : Int := 8
  let margin : Int := 2
  let block_size : Int := 10
  let max_blocks : Int := 100 / block_size
  let label := if align_right then name ++ ": " else " :" ++ name
  let x1 : ℚ := loc.x +
    ((if align_right then -(margin + block_width) * max_blocks
      else (margin + block_width) * max_blocks : Int) : ℚ)
  let x2 : ℚ := if align_right then x1 - (textWidth label : Int) else x1
  [Prim.putText label ⟨x2, loc.y⟩ outline 5, Prim.putText label ⟨x2, loc.y⟩ white 1]

/-- The column of block `k` of a gauge anchored at `loc` when no block before it was passed
over: the running `i` after `k` updates. -/
def blockColumn (loc : Point2f) (align_right : Bool) (k : Nat) : Int :=
  truncToInt loc.x + (if align_right then -10 else 10) * (k : Int)

/-- The row `j` of the blocks of a gauge anchored at `loc`. -/
def blockRow (loc : Point2f) : Int :=
  truncToInt (loc.y - 10)

/-- The condition under which `img(rect)` is a region of an image of size `imgW × imgH`
(otherwise `cv::Mat::operator()` raises the out-of-bounds region error). -/
def Rect.inside (r : Rect) (imgW imgH : Int) : Prop :=
  0 ≤ r.x ∧ 0 ≤ r.width ∧ r.x + r.width ≤ imgW ∧
  0 ≤ r.y ∧ 0 ≤ r.height ∧ r.y + r.height ≤ imgH

instance (r : Rect) (imgW imgH : Int) : Decidable (r.inside imgW imgH) := by
  unfold Rect.inside; infer_instance

/-- `Visualizer::drawEqualizer`. -/
def drawEqualizer (textWidth : String → Int) (imgW imgH : Int) (name : String) (value : ℚ)
    (loc : Point2f) (align_right : Bool) (color : Scalar) : List Prim :=
  drawEqualizerBlocks imgW imgH value loc align_right color ++
    drawEqualizerLabel textWidth name loc align_right

/-- The set `GREEN_COLOR_CLASSIFIERS` of the constructor. -/
def GREEN_COLOR_CLASSIFIERS : List String := ["joy"]

/-- The set `RED_COLOR_CLASSIFIERS` of the constructor. -/
def RED_COLOR_CLASSIFIERS : List String := ["anger"]

/-- The generator `valence_color_generator(-100, 100)` of `drawClassifierOutput` and of
`drawBoundingBox`. -/
def valence_color_generator : ColorgenRedGreen := ⟨-100, 100⟩

/-- The arguments with which `drawEqualizer` is called. -/
structure EqualizerArgs where
  name : String
  value : ℚ
  loc : Point2f
  align_right : Bool
  color : Scalar
  deriving DecidableEq

/-- `Visualizer::drawClassifierOutput`, up to its call of `drawEqualizer`: the display
colour and the magnitude that it passes on. -/
def drawClassifierOutput (classifier : String) (value : ℚ) (loc : Point2f)
    (align_right : Bool) : EqualizerArgs :=
  let color : Scalar :=
    if classifier = "valence" then valence_color_generator.apply value
    else if classifier ∈ RED_COLOR_CLASSIFIERS then ⟨0, 0, 255⟩
    else if classifier ∈ GREEN_COLOR_CLASSIFIERS then ⟨0, 255, 0⟩
    else ⟨255, 255, 255⟩
  let equalizer_magnitude : ℚ := if classifier = "valence" then |value| else value
  ⟨classifier, equalizer_magnitude, loc, align_right, color⟩

/-- The enumerators of `affdex::vision::Expression` named in the constructor. -/
inductive Expression where
  | SMILE | BROW_RAISE | BROW_FURROW | NOSE_WRINKLE | UPPER_LIP_RAISE | MOUTH_OPEN
  | EYE_CLOSURE | CHEEK_RAISE | YAWN | BLINK | BLINK_RATE | EYE_WIDEN | INNER_BROW_RAISE
  | LIP_CORNER_DEPRESSOR
  deriving DecidableEq

/-- The enumerators of `affdex::vision::Emotion` named in the constructor. -/
inductive Emotion where
  | JOY | ANGER | SURPRISE | VALENCE | FEAR | SADNESS | DISGUST | NEUTRAL | CONTEMPT
  deriving DecidableEq

/-- The enumerators of `affdex::vision::Measurement` named in the constructor. -/
inductive Measurement where
  | PITCH | YAW | ROLL
  deriving DecidableEq

/-- The enumerators of `affdex::vision::Mood` named in the constructor. -/
inductive Mood where
  | UNKNOWN | NEUTRAL | NEGATIVE | POSITIVE
  deriving DecidableEq

/-- The enumerators of `affdex::vision::AgeCategory` named in the constructor. -/
inductive AgeCategory where
  | UNKNOWN | BABY | CHILD | TEEN | ADULT
  deriving DecidableEq

/-- The catalog `EXPRESSIONS`, in the order of the constructor. -/
def EXPRESSIONS : List (Expression × String) :=
  [(Expression.SMILE, "smile"),
   (Expression.BROW_RAISE, "browRaise"),
   (Expression.BROW_FURROW, "browFurrow"),
   (Expression.NOSE_WRINKLE, "noseWrinkle"),
   (Expression.UPPER_LIP_RAISE, "upperLipRaise"),
   (Expression.MOUTH_OPEN, "mouthOpen"),
   (Expression.EYE_CLOSURE, "eyeClosure"),
   (Expression.CHEEK_RAISE, "cheekRaise"),
   (Expression.YAWN, "yawn"),
   (Expression.BLINK, "blink"),
   (Expression.BLINK_RATE, "blinkRate"),
   (Expression.EYE_WIDEN, "eyeWiden"),
   (Expression.INNER_BROW_RAISE, "innerBrowRaise"),
   (Expression.LIP_CORNER_DEPRESSOR, "lipCornerDepressor")]

/-- The catalog `EMOTIONS`, in the order of the constructor. -/
def EMOTIONS : List (Emotion × String) :=
  [(Emotion.JOY, "joy"),
   (Emotion.ANGER, "anger"),
   (Emotion.SURPRISE, "surprise"),
   (Emotion.VALENCE, "valence"),
   (Emotion.FEAR, "fear"),
   (Emotion.SADNESS, "sadness"),
   (Emotion.DISGUST, "disgust"),
   (Emotion.NEUTRAL, "neutral")]

/-- The catalog `HEAD_ANGLES`, in the order of the constructor. -/
def HEAD_ANGLES : List (Measurement × String) :=
  [(Measurement.PITCH, "pitch"), (Measurement.YAW, "yaw"), (Measurement.ROLL, "roll")]

/-- The map `MOODS`. -/
def MOODS : List (Mood × String) :=
  [(Mood.UNKNOWN, "UNKNOWN"), (Mood.NEUTRAL, "NEUTRAL"), (Mood.NEGATIVE, "NEGATIVE"),
   (Mood.POSITIVE, "POSITIVE")]

/-- The map `AGE_CATEGORIES`. -/
def AGE_CATEGORIES : List (AgeCategory × String) :=
  [(AgeCategory.UNKNOWN, "UNKNOWN"), (AgeCategory.BABY, "BABY"), (AgeCategory.CHILD, "CHILD"),
   (AgeCategory.TEEN, "TEEN"), (AgeCategory.ADULT, "ADULT")]

/-! ## Faces -/

/-- The record returned by `Face::getIdentityMetric`. -/
structure IdentityMetric where
  id : Int
  confidence : ℚ

/-- The record returned by `Face::getAgeMetric`. -/
structure AgeMetric where
  years : Int
  confidence : ℚ

/-- What `drawFaceMetrics` reads of an `affdex::vision::Face`.  The three score maps are
`std::map`s, read with `at`: a key may be absent. -/
structure Face where
  expressions : Expression → Option ℚ
  emotions : Emotion → Option ℚ
  measurements : Measurement → Option ℚ
  mood : Mood
  identity : IdentityMetric
  age : AgeMetric
  age_category : AgeCategory
  id : Int

/-- An `affdex::vision::Point` of a bounding box. -/
structure Point where
  x : ℚ
  y : ℚ

/-- The function `std::to_string` on `int`: decimal digits, with a minus sign for a
negative number. -/
def to_string (n : Int) : String :=
  if n < 0 then "-" ++ Nat.repr n.natAbs else Nat.repr n.toNat

/-- A call made by `drawFaceMetrics` (or by `drawHeadOrientation` on its behalf). -/
inductive DrawCall where
  /-- The call `drawText(name, value, loc, align_right, color)`. -/
  | text (name value : String) (loc : Point2f) (align_right : Bool) (color : Scalar)
  /-- The call `drawClassifierOutput(classifier, value, loc, align_right)`. -/
  | classifier (name : String) (value : ℚ) (loc : Point2f) (align_right : Bool)
  deriving DecidableEq

/-- The anchor `cv::Point(x, padding)` converted to the `cv::Point2f` parameter. -/
def anchor (x padding : Int) : Point2f := ⟨(x : ℚ), (padding : ℚ)⟩

/-- The loop over `EXPRESSIONS` in `drawFaceMetrics`, from the running `padding`; the
result carries the final `padding`.  The parameter `fixed1` stands for the stream
formatting `std::fixed << std::setw(3) << std::setprecision(1)`. -/
def drawExpressions (fixed1 : ℚ → String) (expressions : Expression → Option ℚ) (x : Int) :
    List (Expression × String) → Int → Option (List DrawCall × Int)
  | [], padding => some ([], padding)
  | exp :: rest, padding =>
    match expressions exp.1 with
    | none => none
    | some score =>
      let padding := padding + spacing
      let call :=
        if exp.1 = Expression.BLINK_RATE then
          DrawCall.text exp.2 (fixed1 score) (anchor x padding) false ⟨255, 255, 255⟩
        else
          let val := if exp.1 = Expression.BLINK then score * 100 else score
          DrawCall.classifier exp.2 val (anchor x padding) false
      match drawExpressions fixed1 expressions x rest padding with
      | none => none
      | some (calls, padding) => some (call :: calls, padding)

/-- The loop of `Visualizer::drawHeadOrientation` over a catalog of head angles. -/
def drawHeadOrientationLoop (fixed1 : ℚ → String) (headAngles : Measurement → Option ℚ)
    (x : Int) (align_right : Bool) (color : Scalar) :
    List (Measurement × String) → Int → Option (List DrawCall × Int)
  | [], padding => some ([], padding)
  | h :: rest, padding =>
    match headAngles h.1 with
    | none => none
    | some angle =>
      let padding := padding + spacing
      let call := DrawCall.text h.2 (fixed1 angle) (anchor x padding) align_right color
      match drawHeadOrientationLoop fixed1 headAngles x align_right color rest padding with
      | none => none
      | some (calls, padding) => some (call :: calls, padding)

/-- `Visualizer::drawHeadOrientation`. -/
def drawHeadOrientation (fixed1 : ℚ → String) (headAngles : Measurement → Option ℚ)
    (x : Int) (padding : Int) (align_right : Bool) (color : Scalar) :
    Option (List DrawCall × Int) :=
  drawHeadOrientationLoop fixed1 headAngles x align_right color HEAD_ANGLES padding

/-- The loop over `EMOTIONS` in `drawFaceMetrics`. -/
def drawEmotions (emotions : Emotion → Option ℚ) (x : Int) :
    List (Emotion × String) → Int → Option (List DrawCall × Int)
  | [], padding => some ([], padding)
  | emo :: rest, padding =>
    match emotions emo.1 with
    | none => none
    | some score =>
      let padding := padding + spacing
      let call := DrawCall.classifier emo.2 score (anchor x padding) true
      match drawEmotions emotions x rest padding with
      | none => none
      | some (calls, padding) => some (call :: calls, padding)

/-- The string `id_content` of `drawFaceMetrics`. -/
def id_content (identity : IdentityMetric) : String :=
  if identity.id = -1 then "UNKNOWN" else to_string identity.id

/-- The string `age_content` of `drawFaceMetrics`. -/
def age_content (age : AgeMetric) : String :=
  if age.years = -1 then "UNKNOWN" else to_string age.years

/-- The part of `drawFaceMetrics` after the loop over `EMOTIONS`: mood, identity, age and
age category, from the running `padding`. -/
def drawFaceTail (face : Face) (x : Int) (padding : Int) : Option (List DrawCall) :=
  let mood := face.mood
  let padding := padding + spacing
  let c_mood := DrawCall.text "mood" ((MOODS.lookup mood).getD "") (anchor x padding) true white
  let identity := face.identity
  let padding := padding + spacing
  let c_id := DrawCall.text "identity" (id_content identity) (anchor x padding) true white
  let padding := padding + spacing
  let c_idc :=
    DrawCall.classifier "identity_confidence" identity.confidence (anchor x padding) true
  let age := face.age
  let padding := padding + spacing
  let c_age := DrawCall.text "age" (age_content age) (anchor x padding) true white
  let padding := padding + spacing
  let c_agec := DrawCall.classifier "age_confidence" age.confidence (anchor x padding) true
  match AGE_CATEGORIES.lookup face.age_category with
  | none => none
  | some category =>
    let padding := padding + spacing
    let c_cat := DrawCall.text "age_category" category (anchor x padding) true white
    some [c_mood, c_id, c_idc, c_age, c_agec, c_cat]

/-- `Visualizer::drawFaceMetrics`: the calls of `drawText` and `drawClassifierOutput` it
makes, in order; `none` when a lookup with `at` fails.  The bounding box is the pair
`bounding_box[0]`, `bounding_box[1]`. -/
def drawFaceMetrics (fixed1 : ℚ → String) (face : Face) (bounding_box : Point × Point)
    (draw_face_id : Bool) : Option (List DrawCall) :=
  let padding : Int := truncToInt bounding_box.1.y
  match drawExpressions fixed1 face.expressions (truncToInt bounding_box.2.x)
      EXPRESSIONS padding with
  | none => none
  | some (right, padding) =>
    match drawHeadOrientation fixed1 face.measurements (truncToInt bounding_box.2.x)
        padding false white with
    | none => none
    | some (head, _) =>
      let padding : Int := truncToInt bounding_box.1.y
      let idc :=
        if draw_face_id then
          [DrawCall.text "ID" (to_string face.id)
            (anchor (truncToInt bounding_box.1.x) (padding + spacing)) false ⟨255, 255, 255⟩]
        else []
      match drawEmotions face.emotions (truncToInt bounding_box.1.x) EMOTIONS padding with
      | none => none
      | some (emos, padding) =>
        match drawFaceTail face (truncToInt bounding_box.1.x) padding with
        | none => none
        | some tail => some (right ++ head ++ idc ++ emos ++ tail)

/-- The drawing primitives issued for one call, on an image of size `imgW × imgH`. -/
def DrawCall.render (textWidth : String → Int) (imgW imgH : Int) : DrawCall → List Prim
  | DrawCall.text name value loc align_right color =>
    drawText textWidth name value loc align_right color outline
  | DrawCall.classifier name value loc align_right =>
    let args := drawClassifierOutput name value loc align_right
    drawEqualizer textWidth imgW imgH args.name args.value args.loc args.align_right
      args.color

/-- A face whose score maps hold every key of the catalogs (the contract of the caller). -/
def Face.complete (face : Face) : Prop :=
  (∀ p ∈ EXPRESSIONS, (face.expressions p.1).isSome = true) ∧
  (∀ p ∈ EMOTIONS, (face.emotions p.1).isSome = true) ∧
  (∀ p ∈ HEAD_ANGLES, (face.measurements p.1).isSome = true)

/-- A face with every score 0 and the identity record `{id: -1, confidence: 0.8}`. -/
def scenarioFace : Face where
  expressions := fun _ => some 0
  emotions := fun _ => some 0
  measurements := fun _ => some 0
  mood := Mood.UNKNOWN
  identity := ⟨-1, 4 / 5⟩
  age := ⟨-1, 0⟩
  age_category := AgeCategory.UNKNOWN
  id := 0

/-- The bounding box `[(100, 100), (300, 400)]`. -/
def scenarioBox : Point × Point := (⟨100, 100⟩, ⟨300, 400⟩)

/-! ## Compositor -/

/-- What `updateImage` reads and writes of a `Visualizer`: the size of the held frame
`img`, the size of the overlay `logo`, and the flag `logo_resized`. -/
structure Visualizer where
  img : Size
  logo : Size
  logo_resized : Bool
  deriving DecidableEq

/-- The constructor `Visualizer::Visualizer`: `logo_resized = false`, `img` empty, and
`logo` the decoded image `small_logo`, whose size is the parameter. -/
def Visualizer.new (small_logo : Size) : Visualizer :=
  ⟨⟨0, 0⟩, small_logo, false⟩

/-- The region `cv::Rect(img.cols - logo.cols - 10, 10, logo.cols, logo.rows)` on which
`updateImage` stamps the overlay. -/
def logoRoi (v : Visualizer) : Rect :=
  ⟨v.img.width - v.logo.width - 10, 10, v.logo.width, v.logo.height⟩

/-- `cv::Size::empty`: no positive width or no positive height. -/
def Size.empty (s : Size) : Bool :=
  decide (s.width ≤ 0) || decide (s.height ≤ 0)

/-- How a call of `updateImage` ends: it returns, or `cv::resize` raises its error on an
empty source or target size, or `img(rect)` raises the out-of-bounds region error. -/
inductive UpdateOutcome where
  | returned
  | resizeError
  | regionError
  deriving DecidableEq

/-- What a call of `updateImage` does: whether the branch `if (!logo_resized)` ran (that
is, whether `cv::resize` was called), how the call ended, and the state it leaves. -/
structure UpdateStep where
  resize_branch : Bool
  outcome : UpdateOutcome
  after : Visualizer
  deriving DecidableEq

/-- The end of `updateImage`, from the line `cv::Mat roi = img(cv::Rect(...))` on: the
region is taken and `overlayImage` called, which reads `logo` by `const` reference and
changes neither `logo` nor `logo_resized`. -/
def stampLogo (resize_branch : Bool) (v : Visualizer) : UpdateStep :=
  if (logoRoi v).inside v.img.width v.img.height then
    ⟨resize_branch, UpdateOutcome.returned, v⟩
  else ⟨resize_branch, UpdateOutcome.regionError, v⟩

/-- `Visualizer::updateImage`, on the sizes and the flag.  The product by `0.25` is exact;
the quotient `(double)height / width` and the product `logo_width * (...)` are `double`
operations; `cv::Size(logo_width, logo_height)` truncates both.  `cv::resize(logo, logo,
size)` raises an error when `logo` or `size` is empty, before `logo` is changed and before
`logo_resized` is set; otherwise it gives `logo` the size `size`. -/
def updateImage (v : Visualizer) (output_img : Size) : UpdateStep :=
  let v := { v with img := output_img }
  if !v.logo_resized then
    let logo_width : ℚ :=
      if (v.logo.width : ℚ) > (v.img.width : ℚ) * (1 / 4) then (v.img.width : ℚ) * (1 / 4)
      else (v.logo.width : ℚ)
    let logo_height : ℚ :=
      fl64 (logo_width * fl64 ((v.logo.height : ℚ) / (v.logo.width : ℚ)))
    let size : Size := ⟨truncToInt logo_width, truncToInt logo_height⟩
    if v.logo.empty || size.empty then ⟨true, UpdateOutcome.resizeError, v⟩
    else stampLogo true { v with logo := size, logo_resized := true }
  else stampLogo false v

/-- A sequence of `updateImage` calls on one `Visualizer`, one per frame, each call
starting from the state the call before left. -/
def updateImageRun : Visualizer → List Size → List UpdateStep
  | _, [] => []
  | v, frame :: frames =>
    updateImage v frame :: updateImageRun (updateImage v frame).after frames

/-- A `cv::Mat` of bytes: `data` is the memory from the address of the first pixel on,
`step` the number of bytes from one row to the next. -/
structure Mat where
  rows : Nat
  cols : Nat
  channels : Nat
  step : Nat
  data : Nat → Fin 256

/-- The opacity that `overlayImage` reads for the foreground pixel `(fX, fY)`: its last
channel divided by 255. -/
def opacityAt (foreground : Mat) (fX fY : Nat) : ℚ :=
  ((foreground.data (fY * foreground.step + fX * foreground.channels
      + (foreground.channels - 1))).val : ℚ) / 255

/-- One pass of the innermost loop of `overlayImage`: channel `c` of the background pixel
in row `y` and column `x`. -/
def overlayChannel (foreground background : Mat) (fX fY x y : Nat) (opacity : ℚ)
    (data : Nat → Fin 256) (c : Nat) : Nat → Fin 256 :=
  let foregroundPx := foreground.data (fY * foreground.step + fX * foreground.channels + c)
  let backgroundPx := data (y * background.step + x * background.channels + c)
  Function.update data (y * background.step + background.channels * x + c)
    (toUchar ((backgroundPx.val : ℚ) * (1 - opacity) + (foregroundPx.val : ℚ) * opacity))

/-- The body of the column loop of `overlayImage` for the background pixel `(x, y)`: the
loop over the channels runs only when the opacity is positive. -/
def overlayPixel (foreground background : Mat) (location : Point2i) (y : Nat)
    (data : Nat → Fin 256) (x : Nat) : Nat → Fin 256 :=
  let fY := ((y : Int) - location.y).toNat
  let fX := ((x : Int) - location.x).toNat
  let opacity := opacityAt foreground fX fY
  if opacity > 0 then
    (List.range background.channels).foldl
      (overlayChannel foreground background fX fY x y opacity) data
  else data

/-- The columns visited by the column loop of `overlayImage`: from `max(location.x, 0)`
while `x < background.cols`, left by `break` at the first `x` with
`x - location.x >= foreground.cols`. -/
def overlayCols (foreground background : Mat) (location : Point2i) : List Nat :=
  let x0 := (max location.x 0).toNat
  (List.range' x0 (background.cols - x0)).takeWhile
    (fun x => decide ((x : Int) - location.x < (foreground.cols : Int)))

/-- The rows visited by the row loop of `overlayImage`. -/
def overlayRows (foreground background : Mat) (location : Point2i) : List Nat :=
  let y0 := (max location.y 0).toNat
  (List.range' y0 (background.rows - y0)).takeWhile
    (fun y => decide ((y : Int) - location.y < (foreground.rows : Int)))

/-- The body of the row loop of `overlayImage` for row `y`. -/
def overlayRow (foreground background : Mat) (location : Point2i)
    (data : Nat → Fin 256) (y : Nat) : Nat → Fin 256 :=
  (overlayCols foreground background location).foldl
    (overlayPixel foreground background location y) data

/-- `Visualizer::overlayImage`: the background after the call. -/
def overlayImage (foreground background : Mat) (location : Point2i) : Mat :=
  { background with
    data := (overlayRows foreground background location).foldl
      (overlayRow foreground background location) background.data }

/-- A foreground of one row and two pixels with four channels: the first pixel is
transparent (alpha 0), the second opaque (alpha 255). -/
def sampleForeground : Mat where
  rows := 1
  cols := 2
  channels := 4
  step := 8
  data := fun i =>
    if i = 3 then 0 else if i = 7 then 255 else if i < 3 then 200 else if i < 7 then 100
    else 0

/-- A background of two rows and three pixels with three channels, every byte 7. -/
def sampleBackground : Mat where
  rows := 2
  cols := 3
  channels := 3
  step := 9
  data := fun _ => 7

/-! ## Layout of the calls -/

/-- The argument `name` (or `classifier`) of a call. -/
def DrawCall.name : DrawCall → String
  | DrawCall.text name _ _ _ _ => name
  | DrawCall.classifier name _ _ _ => name

/-- The anchor `loc` of a call. -/
def DrawCall.loc : DrawCall → Point2f
  | DrawCall.text _ _ loc _ _ => loc
  | DrawCall.classifier _ _ loc _ => loc

/-- The argument `align_right` of a call. -/
def DrawCall.align_right : DrawCall → Bool
  | DrawCall.text _ _ _ align_right _ => align_right
  | DrawCall.classifier _ _ _ align_right => align_right

/-- The names of the entries that `drawFaceMetrics` anchors at the right edge of the box
(`bounding_box[1].x`), in drawing order: the expressions, then the head angles. -/
def rightNames : List String :=
  EXPRESSIONS.map Prod.snd ++ HEAD_ANGLES.map Prod.snd

/-- The names of the entries of the stack that `drawFaceMetrics` anchors at the left edge of
the box (`bounding_box[0].x`), in drawing order. -/
def leftNames : List String :=
  EMOTIONS.map Prod.snd ++
    ["mood", "identity", "identity_confidence", "age", "age_confidence", "age_category"]

/-- The anchors of a stack of `n` rows at column `x` below the row `y0`: row `k` (counted
from 1) at `y0 + 20 k`. -/
def stackAnchors (x y0 : Int) (n : Nat) : List Point2f :=
  (List.range n).map (fun (k : Nat) => anchor x (y0 + 20 * ((k : Int) + 1)))

/-! ## Numeric conversions: basic facts -/

theorem truncToInt_mono {p q : ℚ} (h : p ≤ q) : truncToInt p ≤ truncToInt q := by
  unfold truncToInt
  split_ifs with hp hq hq
  · exact Int.floor_mono h
  · exact absurd (le_trans hp h) hq
  · have h0 : ⌈p⌉ ≤ (0 : Int) := Int.ceil_le.mpr (by push_cast; linarith)
    have h1 : (0 : Int) ≤ ⌊q⌋ := Int.le_floor.mpr (by push_cast; linarith)
    exact le_trans h0 h1
  · exact Int.ceil_mono h

theorem truncToInt_intCast (n : Int) : truncToInt (n : ℚ) = n := by
  unfold truncToInt
  split_ifs <;> simp

theorem cRound_bounds {q : ℚ} (h0 : 0 ≤ q) (h1 : q ≤ 10) : 0 ≤ cRound q ∧ cRound q ≤ 10 := by
  unfold cRound
  rw [if_pos h0]
  constructor
  · exact Int.floor_nonneg.mpr (by linarith)
  · have : ⌊q + 1 / 2⌋ < 11 := Int.floor_lt.mpr (by push_cast; linarith)
    omega

/-! ## Rounding to a floating-point format -/

theorem roundHalfEven_intCast (n : Int) : roundHalfEven (n : ℚ) = n := by
  unfold roundHalfEven
  simp only [Int.floor_intCast, sub_self]
  rw [if_pos (by norm_num)]

theorem roundHalfEven_mono {x y : ℚ} (h : x ≤ y) : roundHalfEven x ≤ roundHalfEven y := by
  have hf := Int.floor_mono h
  unfold roundHalfEven
  simp only []
  rcases hf.lt_or_eq with hlt | heq
  · split_ifs <;> omega
  · rw [heq]
    split_ifs <;> first | omega | (exfalso; rw [heq] at *; linarith)

theorem two_zpow_split (m : Nat) (e : Int) :
    (2 : ℚ) ^ e = (2 : ℚ) ^ m * (2 : ℚ) ^ (e - (m : Int)) := by
  rw [← zpow_natCast, ← zpow_add₀ (two_ne_zero)]
  congr 1
  ring

theorem roundFloat_zero (mant : Nat) : roundFloat mant 0 = 0 := by
  unfold roundFloat
  simp [roundHalfEven]

theorem roundFloat_pos_bounds (mant : Nat) {x : ℚ} (hx : 0 < x) :
    (2 : ℚ) ^ (Int.log 2 x) ≤ roundFloat mant x ∧
    roundFloat mant x ≤ (2 : ℚ) ^ (Int.log 2 x + 1) := by
  have h1 : (2 : ℚ) ^ (Int.log 2 x) ≤ x := by
    have := Int.zpow_log_le_self (b := 2) (r := x) (by norm_num) hx
    simpa using this
  have h2 : x < (2 : ℚ) ^ (Int.log 2 x + 1) := by
    have := Int.lt_zpow_succ_log_self (b := 2) (by norm_num) x
    simpa using this
  have hu : (0 : ℚ) < (2 : ℚ) ^ (Int.log 2 x - (mant : Int)) := zpow_pos (by norm_num) _
  unfold roundFloat
  simp only [abs_of_pos hx]
  constructor
  · rw [two_zpow_split mant (Int.log 2 x)]
    apply mul_le_mul_of_nonneg_right _ hu.le
    have ht : (((2 : Int) ^ mant : Int) : ℚ) ≤ x / (2 : ℚ) ^ (Int.log 2 x - (mant : Int)) := by
      rw [le_div_iff₀ hu]
      push_cast
      rw [← two_zpow_split]
      exact h1
    have := roundHalfEven_mono ht
    rw [roundHalfEven_intCast] at this
    exact_mod_cast this
  · rw [two_zpow_split (mant + 1) (Int.log 2 x + 1)]
    have e : Int.log 2 x + 1 - ((mant + 1 : Nat) : Int) = Int.log 2 x - (mant : Int) := by
      push_cast; ring
    rw [e]
    apply mul_le_mul_of_nonneg_right _ hu.le
    have ht : x / (2 : ℚ) ^ (Int.log 2 x - (mant : Int)) ≤ (((2 : Int) ^ (mant + 1) : Int) : ℚ) := by
      rw [div_le_iff₀ hu]
      push_cast
      have := two_zpow_split (mant + 1) (Int.log 2 x + 1)
      rw [e] at this
      rw [← this]
      exact h2.le
    have := roundHalfEven_mono ht
    rw [roundHalfEven_intCast] at this
    exact_mod_cast this


theorem roundHalfEven_neg (t : ℚ) : roundHalfEven (-t) = -roundHalfEven t := by
  have h1 := Int.floor_le t
  have h2 := Int.lt_floor_add_one t
  have h3 := Int.floor_le (-t)
  have h4 := Int.lt_floor_add_one (-t)
  have hg : ⌊-t⌋ = -⌊t⌋ - 1 ∨ (⌊-t⌋ = -⌊t⌋ ∧ t = (⌊t⌋ : ℚ)) := by
    by_cases ht : t = (⌊t⌋ : ℚ)
    · right
      refine ⟨?_, ht⟩
      rw [ht, ← Int.cast_neg, Int.floor_intCast, Int.floor_intCast]
    · left
      have hlt : (⌊t⌋ : ℚ) < t := lt_of_le_of_ne h1 (Ne.symm ht)
      rw [Int.floor_eq_iff]
      push_cast
      constructor <;> linarith
  unfold roundHalfEven
  simp only []
  rcases hg with hg | ⟨hg, ht⟩
  · rw [hg]
    push_cast
    split_ifs <;> first | omega | (exfalso; linarith)
  · rw [hg]
    push_cast
    have e1 : -t - -(⌊t⌋ : ℚ) = 0 := by linarith
    have e2 : t - (⌊t⌋ : ℚ) = 0 := by linarith
    rw [e1, e2]
    norm_num

theorem roundFloat_neg (mant : Nat) (x : ℚ) : roundFloat mant (-x) = -roundFloat mant x := by
  unfold roundFloat
  simp only [abs_neg, neg_div, roundHalfEven_neg, Int.cast_neg, neg_mul]

theorem roundFloat_mono_pos (mant : Nat) {x y : ℚ} (hx : 0 < x) (h : x ≤ y) :
    roundFloat mant x ≤ roundFloat mant y := by
  have hy : 0 < y := lt_of_lt_of_le hx h
  have hl : Int.log 2 x ≤ Int.log 2 y := Int.log_mono_right hx h
  rcases hl.lt_or_eq with hlt | heq
  · have hxb := (roundFloat_pos_bounds mant hx).2
    have hyb := (roundFloat_pos_bounds mant hy).1
    have hp : (2 : ℚ) ^ (Int.log 2 x + 1) ≤ (2 : ℚ) ^ (Int.log 2 y) :=
      zpow_le_zpow_right₀ (by norm_num) (by omega)
    linarith
  · unfold roundFloat
    simp only [abs_of_pos hx, abs_of_pos hy, heq]
    have hu : (0 : ℚ) < (2 : ℚ) ^ (Int.log 2 y - (mant : Int)) := zpow_pos (by norm_num) _
    apply mul_le_mul_of_nonneg_right _ hu.le
    exact_mod_cast roundHalfEven_mono (div_le_div_of_nonneg_right h hu.le)

theorem roundFloat_nonneg (mant : Nat) {x : ℚ} (hx : 0 ≤ x) : 0 ≤ roundFloat mant x := by
  rcases hx.lt_or_eq with h | h
  · exact le_trans (zpow_pos (by norm_num) _).le (roundFloat_pos_bounds mant h).1
  · rw [← h, roundFloat_zero]

theorem roundFloat_pos (mant : Nat) {x : ℚ} (hx : 0 < x) : 0 < roundFloat mant x :=
  lt_of_lt_of_le (zpow_pos (by norm_num) _) (roundFloat_pos_bounds mant hx).1

theorem roundFloat_mono (mant : Nat) {x y : ℚ} (h : x ≤ y) :
    roundFloat mant x ≤ roundFloat mant y := by
  rcases lt_trichotomy 0 x with hx | hx | hx
  · exact roundFloat_mono_pos mant hx h
  · rw [← hx, roundFloat_zero]
    exact roundFloat_nonneg mant (hx ▸ h)
  · by_cases hy : y < 0
    · have := roundFloat_mono_pos mant (neg_pos.mpr hy) (neg_le_neg h)
      rw [roundFloat_neg, roundFloat_neg] at this
      linarith
    · have h1 := roundFloat_nonneg mant (not_lt.mp hy)
      have h2 := roundFloat_nonneg mant (neg_pos.mpr hx).le
      rw [roundFloat_neg] at h2
      linarith

theorem fl32_mono {x y : ℚ} (h : x ≤ y) : fl32 x ≤ fl32 y := roundFloat_mono 23 h

theorem fl64_mono {x y : ℚ} (h : x ≤ y) : fl64 x ≤ fl64 y := roundFloat_mono 52 h

theorem fl32_zero : fl32 0 = 0 := roundFloat_zero 23

theorem fl32_one : fl32 1 = 1 := by decide!

theorem fl32_255 : fl32 255 = 255 := by decide!

theorem fl64_zero : fl64 0 = 0 := roundFloat_zero 52

theorem fl64_one : fl64 1 = 1 := by decide!

theorem fl64_255 : fl64 255 = 255 := by decide!

/-! ## Red-green ramp -/

theorem normVal_eq_clamp (gen : ColorgenRedGreen) (v : ℚ) :
    gen.normVal v = min 1 (max 0
      (fl32 (fl32 (v - gen.red_val_) / fl32 (gen.green_val_ - gen.red_val_)))) := by
  unfold ColorgenRedGreen.normVal
  simp only []
  split_ifs with h1 h2 h2
  · exact absurd h2 (by norm_num)
  · rw [max_eq_left h1.le]; norm_num
  · rw [max_eq_right (not_lt.mp h1), min_eq_left h2.le]
  · rw [max_eq_right (not_lt.mp h1), min_eq_right (not_lt.mp h2)]

theorem rampSpan_pos (gen : ColorgenRedGreen) (h : gen.red_val_ < gen.green_val_) :
    0 < fl32 (gen.green_val_ - gen.red_val_) :=
  roundFloat_pos 23 (by linarith)

theorem normVal_mono (gen : ColorgenRedGreen) (h : gen.red_val_ < gen.green_val_)
    {v1 v2 : ℚ} (h12 : v1 ≤ v2) : gen.normVal v1 ≤ gen.normVal v2 := by
  rw [normVal_eq_clamp, normVal_eq_clamp]
  have hd := rampSpan_pos gen h
  have h1 : fl32 (v1 - gen.red_val_) ≤ fl32 (v2 - gen.red_val_) := fl32_mono (by linarith)
  have h2 : fl32 (fl32 (v1 - gen.red_val_) / fl32 (gen.green_val_ - gen.red_val_))
      ≤ fl32 (fl32 (v2 - gen.red_val_) / fl32 (gen.green_val_ - gen.red_val_)) :=
    fl32_mono (div_le_div_of_nonneg_right h1 hd.le)
  exact min_le_min le_rfl (max_le_max le_rfl h2)

theorem normVal_low (gen : ColorgenRedGreen) (h : gen.red_val_ < gen.green_val_)
    {v : ℚ} (hv : v ≤ gen.red_val_) : gen.normVal v = 0 := by
  rw [normVal_eq_clamp]
  have hd := rampSpan_pos gen h
  have h1 : fl32 (v - gen.red_val_) ≤ 0 := by
    have := fl32_mono (show v - gen.red_val_ ≤ 0 by linarith)
    rwa [fl32_zero] at this
  have h2 : fl32 (fl32 (v - gen.red_val_) / fl32 (gen.green_val_ - gen.red_val_)) ≤ 0 := by
    have := fl32_mono (div_nonpos_of_nonpos_of_nonneg h1 hd.le)
    rwa [fl32_zero] at this
  rw [max_eq_left h2]; norm_num

theorem normVal_high (gen : ColorgenRedGreen) (h : gen.red_val_ < gen.green_val_)
    {v : ℚ} (hv : gen.green_val_ ≤ v) : gen.normVal v = 1 := by
  rw [normVal_eq_clamp]
  have hd := rampSpan_pos gen h
  have h1 : fl32 (gen.green_val_ - gen.red_val_) ≤ fl32 (v - gen.red_val_) :=
    fl32_mono (by linarith)
  have h2 : 1 ≤ fl32 (fl32 (v - gen.red_val_) / fl32 (gen.green_val_ - gen.red_val_)) := by
    have := fl32_mono ((one_le_div hd).mpr h1)
    rwa [fl32_one] at this
  rw [max_eq_right (le_trans zero_le_one h2), min_eq_left h2]

/-- C3 (red-green ramp clamping).  With `red_point < green_point`, every value at or
below `red_point` maps to pure red `(B, G, R) = (0, 0, 255)` and every value at or above
`green_point` maps to pure green `(0, 255, 0)`. -/
theorem redGreen_clamped (gen : ColorgenRedGreen) (h : gen.red_val_ < gen.green_val_)
    (v : ℚ) :
    (v ≤ gen.red_val_ → gen.apply v = ⟨0, 0, 255⟩) ∧
    (gen.green_val_ ≤ v → gen.apply v = ⟨0, 255, 0⟩) := by
  constructor
  · intro hv
    simp only [ColorgenRedGreen.apply, normVal_low gen h hv]
    norm_num [truncToInt, fl32_zero, fl64_one, fl64_255]
  · intro hv
    simp only [ColorgenRedGreen.apply, normVal_high gen h hv]
    norm_num [truncToInt, fl32_255, fl64_zero]

/-- C3, witness: the valence ramp over `[-100, 100]` at the value `-150`. -/
theorem redGreen_clamped_witness :
    (valence_color_generator.red_val_ < valence_color_generator.green_val_) ∧
    ((-150 : ℚ) ≤ valence_color_generator.red_val_ →
      valence_color_generator.apply (-150) = ⟨0, 0, 255⟩) ∧
    (valence_color_generator.green_val_ ≤ (-150 : ℚ) →
      valence_color_generator.apply (-150) = ⟨0, 255, 0⟩) :=
  ⟨by norm_num [valence_color_generator],
   redGreen_clamped valence_color_generator (by norm_num [valence_color_generator]) (-150)⟩

/-- C4 (red-green ramp monotonicity).  With `red_point < green_point` and `v1 ≤ v2`, the
green channel does not decrease, the red channel does not increase, the blue channel is
0, and the channels are the truncations of `255 * n` (computed in `float`) and of
`255 * (1 - n)` (computed in `double`) for the clamped normalised value `n`, the `float`
quotient `(v - red_point) / (green_point - red_point)` clamped to `[0, 1]`. -/
theorem redGreen_monotone (gen : ColorgenRedGreen) (h : gen.red_val_ < gen.green_val_)
    (v1 v2 : ℚ) (h12 : v1 ≤ v2) :
    (gen.apply v1).g ≤ (gen.apply v2).g ∧
    (gen.apply v2).r ≤ (gen.apply v1).r ∧
    (gen.apply v1).b = 0 ∧ (gen.apply v2).b = 0 ∧
    (∀ v : ℚ, gen.apply v =
      ⟨0,
       truncToInt (fl32 (min 1 (max 0
          (fl32 (fl32 (v - gen.red_val_) / fl32 (gen.green_val_ - gen.red_val_)))) * 255)),
       truncToInt (fl64 (fl64 (1 - min 1 (max 0
          (fl32 (fl32 (v - gen.red_val_) / fl32 (gen.green_val_ - gen.red_val_))))) * 255))⟩)
    := by
  have hm := normVal_mono gen h h12
  refine ⟨?_, ?_, rfl, rfl, ?_⟩
  · exact truncToInt_mono (fl32_mono (by linarith))
  · exact truncToInt_mono
      (fl64_mono (mul_le_mul_of_nonneg_right (fl64_mono (by linarith)) (by norm_num)))
  · intro v
    simp only [ColorgenRedGreen.apply, normVal_eq_clamp]

/-- C4, witness: the valence ramp over `[-100, 100]` at the values `20` and `60`, where
the rounding of the `float` quotient shows in the red channel. -/
theorem redGreen_monotone_witness :
    (valence_color_generator.red_val_ < valence_color_generator.green_val_) ∧
    ((20 : ℚ) ≤ 60) ∧
    (valence_color_generator.apply 20).g ≤ (valence_color_generator.apply 60).g ∧
    (valence_color_generator.apply 60).r ≤ (valence_color_generator.apply 20).r ∧
    valence_color_generator.apply 20 = ⟨0, 153, 101⟩ ∧
    valence_color_generator.apply 60 = ⟨0, 204, 50⟩ :=
  ⟨by decide!, by decide!,
   (redGreen_monotone valence_color_generator (by decide!) 20 60 (by decide!)).1,
   (redGreen_monotone valence_color_generator (by decide!) 20 60 (by decide!)).2.1,
   by decide!, by decide!⟩

/-! ## Gauge -/

theorem blockRect_inside (imgW imgH i j : Int)
    (h : ¬ ((blockRect imgW imgH i j).height < 0 ∨ (blockRect imgW imgH i j).width < 0)) :
    (blockRect imgW imgH i j).inside imgW imgH := by
  simp only [blockRect, not_or, not_lt] at h
  simp only [blockRect, Rect.inside]
  obtain ⟨h1, h2⟩ := h
  refine ⟨le_max_right _ _, h2, ?_, le_max_right _ _, h1, ?_⟩
  · have := min_le_right (8 : Int) (imgW - max i 0); omega
  · have := min_le_right (10 : Int) (imgH - max j 0); omega

theorem blockRect_of_inside (imgW imgH i j : Int)
    (h : (Rect.mk i j 8 10).inside imgW imgH) : blockRect imgW imgH i j = ⟨i, j, 8, 10⟩ := by
  simp only [Rect.inside] at h
  obtain ⟨h1, -, h3, h4, -, h6⟩ := h
  simp only [blockRect]
  rw [max_eq_left h1, max_eq_left h4, min_eq_left (by omega), min_eq_left (by omega)]

theorem equalizerLoop_inside (imgW imgH j blocks : Int) (align_right : Bool) (color : Scalar) :
    ∀ (n : Nat) (x i : Int),
      (∀ k : Nat, k < n →
        (Rect.mk (i + (if align_right then -10 else 10) * (k : Int)) j 8 10).inside imgW imgH) →
      equalizerLoop imgW imgH j blocks align_right color n x i =
        (List.range n).map (fun (k : Nat) =>
          Prim.blend ⟨i + (if align_right then -10 else 10) * (k : Int), j, 8, 10⟩
            (if x + (k : Int) ≥ blocks then 3 / 10 else 8 / 10)
            (if x + (k : Int) ≥ blocks then gray else color)) := by
  intro n
  induction n with
  | zero => intro x i _; simp [equalizerLoop]
  | succ n ih =>
    intro x i h
    have h0 := h 0 (Nat.succ_pos n)
    simp only [Nat.cast_zero, mul_zero, add_zero] at h0
    have hr := blockRect_of_inside imgW imgH i j h0
    have hstep : ∀ k : Nat, k < n →
        (Rect.mk (i + (if align_right then -10 else 10)
          + (if align_right then -10 else 10) * (k : Int)) j 8 10).inside imgW imgH := by
      intro k hk
      have := h (k + 1) (Nat.succ_lt_succ hk)
      have e : i + (if align_right then -10 else 10) * ((k + 1 : Nat) : Int)
          = i + (if align_right then -10 else 10)
            + (if align_right then -10 else 10) * (k : Int) := by
        push_cast; ring
      rwa [e] at this
    have ih' := ih (x + 1) (i + (if align_right then -10 else 10)) hstep
    rw [List.range_succ_eq_map, List.map_cons, List.map_map]
    unfold equalizerLoop
    simp only [hr]
    rw [if_neg (by norm_num)]
    have e2 : (if align_right = true then -((2 : Int) + 8) else 2 + 8)
        = (if align_right = true then -10 else 10) := by norm_num
    rw [e2, ih']
    simp only [Nat.cast_zero, mul_zero, add_zero]
    congr 1
    apply List.map_congr_left
    intro k _
    simp only [Function.comp, Nat.succ_eq_add_one, Nat.cast_add, Nat.cast_one]
    have e3 : x + 1 + (k : Int) = x + ((k : Int) + 1) := by ring
    have e4 : i + (if align_right = true then -10 else 10)
          + (if align_right = true then -10 else 10) * (k : Int)
        = i + (if align_right = true then -10 else 10) * ((k : Int) + 1) := by ring
    rw [e3, e4]

theorem equalizerLoop_regions (imgW imgH j blocks : Int) (align_right : Bool)
    (color : Scalar) :
    ∀ (n : Nat) (x i : Int) (p : Prim),
      p ∈ equalizerLoop imgW imgH j blocks align_right color n x i →
      ∃ r a c, p = Prim.blend r a c ∧ r.inside imgW imgH := by
  intro n
  induction n with
  | zero => intro x i p hp; simp [equalizerLoop] at hp
  | succ n ih =>
    intro x i p hp
    unfold equalizerLoop at hp
    simp only [] at hp
    by_cases hskip : (blockRect imgW imgH i j).height < 0 ∨ (blockRect imgW imgH i j).width < 0
    · rw [if_pos hskip] at hp
      exact ih _ _ p hp
    · rw [if_neg hskip] at hp
      rcases List.mem_cons.mp hp with hp | hp
      · exact ⟨_, _, _, hp, blockRect_inside imgW imgH i j hskip⟩
      · exact ih _ _ p hp


theorem equalizerBlocks_bounds {v : ℚ} (hv0 : 0 ≤ v) (hv1 : v ≤ 100) :
    0 ≤ equalizerBlocks v ∧ equalizerBlocks v ≤ 10 := by
  unfold equalizerBlocks
  apply cRound_bounds
  · push_cast; positivity
  · push_cast; linarith

theorem drawEqualizerBlocks_inside (imgW imgH : Int) (v : ℚ) (loc : Point2f)
    (align_right : Bool) (color : Scalar)
    (hin : ∀ k : Nat, k < 10 →
      (Rect.mk (blockColumn loc align_right k) (blockRow loc) 8 10).inside imgW imgH) :
    drawEqualizerBlocks imgW imgH v loc align_right color =
      (List.range 10).map (fun (k : Nat) =>
        Prim.blend ⟨blockColumn loc align_right k, blockRow loc, 8, 10⟩
          (if (k : Int) ≥ equalizerBlocks v then 3 / 10 else 8 / 10)
          (if (k : Int) ≥ equalizerBlocks v then gray else color)) := by
  unfold drawEqualizerBlocks
  simp only []
  have e : ((100 : Int) / 10).toNat = 10 := by decide
  have h := equalizerLoop_inside imgW imgH (blockRow loc) (equalizerBlocks v) align_right
    color 10 0 (truncToInt loc.x) hin
  rw [e, show truncToInt (loc.y - 10) = blockRow loc from rfl, h]
  apply List.map_congr_left
  intro k _
  simp only [blockColumn, blockRow, zero_add]

/-- C1 (drawEqualizer block count).  For a magnitude `v` in `[0, 100]` and an anchor for
which the ten block rectangles lie inside the frame, `blocks = round(v / 10)` lies in
`[0, 10]` and `drawEqualizer` blends exactly ten blocks, in order: the first `blocks` at
opacity 0.8 in the supplied colour, then the other `10 - blocks` at opacity 0.3 in gray
(186, 186, 186); only the label follows. -/
theorem drawEqualizer_block_count (textWidth : String → Int) (imgW imgH : Int)
    (name : String) (v : ℚ) (loc : Point2f) (align_right : Bool) (color : Scalar)
    (hv0 : 0 ≤ v) (hv1 : v ≤ 100)
    (hin : ∀ k : Nat, k < 10 →
      (Rect.mk (blockColumn loc align_right k) (blockRow loc) 8 10).inside imgW imgH) :
    equalizerBlocks v = cRound (v / 10) ∧
    0 ≤ equalizerBlocks v ∧ equalizerBlocks v ≤ 10 ∧
    drawEqualizer textWidth imgW imgH name v loc align_right color =
      (List.range (equalizerBlocks v).toNat).map (fun (k : Nat) =>
        Prim.blend ⟨blockColumn loc align_right k, blockRow loc, 8, 10⟩ (8 / 10) color) ++
      (List.range' (equalizerBlocks v).toNat (10 - (equalizerBlocks v).toNat)).map
        (fun (k : Nat) =>
          Prim.blend ⟨blockColumn loc align_right k, blockRow loc, 8, 10⟩ (3 / 10) gray) ++
      drawEqualizerLabel textWidth name loc align_right ∧
    ((List.range (equalizerBlocks v).toNat).map (fun (k : Nat) =>
        Prim.blend ⟨blockColumn loc align_right k, blockRow loc, 8, 10⟩ (8 / 10) color)).length
      + ((List.range' (equalizerBlocks v).toNat (10 - (equalizerBlocks v).toNat)).map
        (fun (k : Nat) =>
          Prim.blend ⟨blockColumn loc align_right k, blockRow loc, 8, 10⟩ (3 / 10) gray)).length
      = 10 := by
  obtain ⟨hb0, hb1⟩ := equalizerBlocks_bounds hv0 hv1
  have hf : (equalizerBlocks v).toNat ≤ 10 := by omega
  refine ⟨by simp [equalizerBlocks], hb0, hb1, ?_, ?_⟩
  · unfold drawEqualizer
    rw [drawEqualizerBlocks_inside imgW imgH v loc align_right color hin]
    congr 1
    have hsplit : List.range 10 = List.range (equalizerBlocks v).toNat ++
        List.range' (equalizerBlocks v).toNat (10 - (equalizerBlocks v).toNat) := by
      have h := List.range'_append_1 0 (equalizerBlocks v).toNat
        (10 - (equalizerBlocks v).toNat)
      rw [zero_add] at h
      rw [List.range_eq_range', List.range_eq_range', h]
      congr 1
      omega
    rw [hsplit, List.map_append]
    congr 1
    · apply List.map_congr_left
      intro k hk
      have hk' : k < (equalizerBlocks v).toNat := List.mem_range.mp hk
      have : ¬ ((k : Int) ≥ equalizerBlocks v) := by omega
      rw [if_neg this, if_neg this]
    · apply List.map_congr_left
      intro k hk
      have hk' := (List.mem_range'_1.mp hk).1
      have : (k : Int) ≥ equalizerBlocks v := by omega
      rw [if_pos this, if_pos this]
  · simp only [List.length_map, List.length_range, List.length_range']
    omega

/-- C1, witness: magnitude 55 on a 200 × 200 frame, left-justified at `(50, 60)`: six
filled blocks, then four unfilled ones. -/
theorem drawEqualizer_block_count_witness :
    (0 : ℚ) ≤ 55 ∧ (55 : ℚ) ≤ 100 ∧
    (∀ k : Nat, k < 10 →
      (Rect.mk (blockColumn ⟨50, 60⟩ false k) (blockRow ⟨50, 60⟩) 8 10).inside 200 200) ∧
    equalizerBlocks 55 = 6 ∧
    drawEqualizer (fun s => 10 * (s.length : Int)) 200 200 "joy" 55 ⟨50, 60⟩ false white =
      (List.range (equalizerBlocks 55).toNat).map (fun (k : Nat) =>
        Prim.blend ⟨blockColumn ⟨50, 60⟩ false k, blockRow ⟨50, 60⟩, 8, 10⟩ (8 / 10) white) ++
      (List.range' (equalizerBlocks 55).toNat (10 - (equalizerBlocks 55).toNat)).map
        (fun (k : Nat) =>
          Prim.blend ⟨blockColumn ⟨50, 60⟩ false k, blockRow ⟨50, 60⟩, 8, 10⟩ (3 / 10) gray) ++
      drawEqualizerLabel (fun s => 10 * (s.length : Int)) "joy" ⟨50, 60⟩ false :=
  ⟨by norm_num, by norm_num, by decide!, by decide!,
   (drawEqualizer_block_count (fun s => 10 * (s.length : Int)) 200 200 "joy" 55 ⟨50, 60⟩
      false white (by norm_num) (by norm_num) (by decide!)).2.2.2.1⟩

/-- C10 (equalizer safe near any frame edge).  Every rectangle that `drawEqualizer` takes
as a region of an image of size `imgW × imgH`, for any anchor, justification and
magnitude, has non-negative origin and extent and lies inside the image. -/
theorem drawEqualizer_regions_inside (textWidth : String → Int) (imgW imgH : Int)
    (name : String) (v : ℚ) (loc : Point2f) (align_right : Bool) (color : Scalar)
    (r : Rect) (a : ℚ) (c : Scalar)
    (hmem : Prim.blend r a c ∈ drawEqualizer textWidth imgW imgH name v loc align_right color) :
    0 ≤ r.x ∧ 0 ≤ r.y ∧ 0 ≤ r.width ∧ 0 ≤ r.height ∧
    r.x + r.width ≤ imgW ∧ r.y + r.height ≤ imgH := by
  unfold drawEqualizer at hmem
  rcases List.mem_append.mp hmem with h | h
  · obtain ⟨r', a', c', he, hin⟩ := equalizerLoop_regions _ _ _ _ _ _ _ _ _ _ h
    injection he with h1 h2 h3
    subst h1
    obtain ⟨i1, i2, i3, i4, i5, i6⟩ := hin
    exact ⟨i1, i4, i2, i5, i3, i6⟩
  · simp [drawEqualizerLabel] at h

/-- C10, witness: a gauge anchored 5 columns before the right edge of a 100 × 50 frame and
5 rows below its top; the only region taken is clipped to 5 × 10 at `(95, 0)`. -/
theorem drawEqualizer_regions_inside_witness :
    Prim.blend ⟨95, 0, 5, 10⟩ (8 / 10) white ∈
      drawEqualizer (fun s => 10 * (s.length : Int)) 100 50 "joy" 30 ⟨95, 5⟩ false white ∧
    ((0 : Int) ≤ 95 ∧ (0 : Int) ≤ 0 ∧ (0 : Int) ≤ 5 ∧ (0 : Int) ≤ 10 ∧
      (95 : Int) + 5 ≤ 100 ∧ (0 : Int) + 10 ≤ 50) :=
  ⟨by decide!,
   drawEqualizer_regions_inside (fun s => 10 * (s.length : Int)) 100 50 "joy" 30 ⟨95, 5⟩
     false white ⟨95, 0, 5, 10⟩ (8 / 10) white (by decide!)⟩

/-- C6, counterexample.  With the text width `10 * length`, the anchor `(300, 120)` and the
label "yaw", the right edge of the right-justified string is column 230 for the value
"1.0" and column 250 for the value "-12.5": it depends on the value. -/
theorem drawText_right_edge_counterexample :
    drawTextRightEdge (fun s => 10 * (s.length : Int)) "yaw" "1.0" ⟨300, 120⟩ true = 230 ∧
    drawTextRightEdge (fun s => 10 * (s.length : Int)) "yaw" "-12.5" ⟨300, 120⟩ true = 250 ∧
    drawTextRightEdge (fun s => 10 * (s.length : Int)) "yaw" "1.0" ⟨300, 120⟩ true ≠
      drawTextRightEdge (fun s => 10 * (s.length : Int)) "yaw" "-12.5" ⟨300, 120⟩ true := by
  decide!

/-- C6, amended.  For every text width measure, label, value and anchor, right-justified
`drawText` renders `"<label>: <value>"` so that the label part `"<label>: "` ends at the
column `anchor.x - 100`; the right edge of the whole string is that column plus the width
that the value adds to the label part. -/
theorem drawText_label_edge (textWidth : String → Int) (name value : String)
    (loc : Point2f) (color bg_color : Scalar) :
    drawText textWidth name value loc true color bg_color =
      [Prim.putText ((name ++ ": ") ++ value)
          (drawTextLoc textWidth name loc true) bg_color 5,
       Prim.putText ((name ++ ": ") ++ value)
          (drawTextLoc textWidth name loc true) color 1] ∧
    (drawTextLoc textWidth name loc true).x + ((textWidth (name ++ ": ") : Int) : ℚ)
      = loc.x - 100 ∧
    drawTextRightEdge textWidth name value loc true
      = loc.x - 100 + (((textWidth ((name ++ ": ") ++ value) : Int) : ℚ)
          - ((textWidth (name ++ ": ") : Int) : ℚ)) := by
  refine ⟨rfl, ?_, ?_⟩
  · simp only [drawTextLoc]
    norm_num
  · simp only [drawTextRightEdge, drawTextLoc, drawTextString]
    norm_num
    ring

/-! ## Decimal strings -/

theorem digitChar_isDigit (d : Nat) (h : d < 10) : (Nat.digitChar d).isDigit = true := by
  interval_cases d <;> decide

theorem toDigitsCore_isDigit (f : Nat) : ∀ (n : Nat) (ds : List Char),
    (∀ c ∈ ds, c.isDigit = true) → ∀ c ∈ Nat.toDigitsCore 10 f n ds, c.isDigit = true := by
  induction f with
  | zero => intro n ds h c hc; simpa [Nat.toDigitsCore] using h c (by simpa [Nat.toDigitsCore] using hc)
  | succ f ih =>
    intro n ds h c hc
    simp only [Nat.toDigitsCore] at hc
    have hd : ∀ c ∈ Nat.digitChar (n % 10) :: ds, c.isDigit = true := by
      intro c hc
      rcases List.mem_cons.mp hc with rfl | hc
      · exact digitChar_isDigit _ (Nat.mod_lt _ (by decide))
      · exact h c hc
    split_ifs at hc
    · exact hd c hc
    · exact ih _ _ hd c hc

theorem toDigits_isDigit (n : Nat) : ∀ c ∈ Nat.toDigits 10 n, c.isDigit = true :=
  toDigitsCore_isDigit _ _ _ (by simp)

theorem toDigitsCore_length_ge (f : Nat) : ∀ (n : Nat) (ds : List Char),
    ds.length ≤ (Nat.toDigitsCore 10 f n ds).length := by
  induction f with
  | zero => intro n ds; simp [Nat.toDigitsCore]
  | succ f ih =>
    intro n ds
    simp only [Nat.toDigitsCore]
    split_ifs
    · simp
    · exact le_trans (by simp) (ih _ _)

theorem toDigitsCore_succ_length_ge (f n : Nat) (ds : List Char) :
    ds.length + 1 ≤ (Nat.toDigitsCore 10 (f + 1) n ds).length := by
  rw [Nat.toDigitsCore]
  split_ifs
  · simp
  · exact le_trans (by simp) (toDigitsCore_length_ge _ _ _)

theorem toDigits_eq_one (m : Nat) (h : Nat.toDigits 10 m = ['1']) : m = 1 := by
  by_cases hm : m < 10
  · interval_cases m <;> first | rfl | (exact absurd h (by decide))
  · exfalso
    have hlen : 2 ≤ (Nat.toDigits 10 m).length := by
      obtain ⟨k, rfl⟩ : ∃ k, m = k + 1 := ⟨m - 1, by omega⟩
      unfold Nat.toDigits
      rw [Nat.toDigitsCore]
      rw [if_neg (by omega)]
      have h2 := toDigitsCore_succ_length_ge k ((k + 1) / 10) [((k + 1) % 10).digitChar]
      simpa using h2
    rw [h] at hlen
    simp at hlen

theorem to_string_ne_unknown (n : Int) : to_string n ≠ "UNKNOWN" := by
  intro h
  unfold to_string at h
  split_ifs at h
  · have := congrArg String.data h
    simp [Nat.repr] at this
  · have := congrArg String.data h
    simp only [Nat.repr, List.asString] at this
    have hU := toDigits_isDigit n.toNat 'U' (by rw [this]; decide)
    exact absurd hU (by decide)

theorem to_string_eq_minus_one (n : Int) (h : to_string n = "-1") : n = -1 := by
  unfold to_string at h
  split_ifs at h with hn
  · have := congrArg String.data h
    simp only [Nat.repr, List.asString, String.data_append] at this
    have h1 : Nat.toDigits 10 n.natAbs = ['1'] := by simpa using this
    have := toDigits_eq_one _ h1
    omega
  · have := congrArg String.data h
    simp only [Nat.repr, List.asString] at this
    have hU := toDigits_isDigit n.toNat '-' (by rw [this]; decide)
    exact absurd hU (by decide)

/-! ## Face metrics -/

theorem drawExpressions_isSome (fixed1 : ℚ → String) (expressions : Expression → Option ℚ)
    (x : Int) : ∀ (l : List (Expression × String)) (padding : Int),
    (∀ p ∈ l, (expressions p.1).isSome = true) →
    ∃ r, drawExpressions fixed1 expressions x l padding = some r := by
  intro l
  induction l with
  | nil => intro padding _; exact ⟨_, rfl⟩
  | cons e rest ih =>
    intro padding h
    obtain ⟨score, hs⟩ := Option.isSome_iff_exists.mp (h e (List.mem_cons_self _ _))
    obtain ⟨r, hr⟩ := ih (padding + spacing) (fun p hp => h p (List.mem_cons_of_mem _ hp))
    simp only [drawExpressions, hs, hr]
    exact ⟨_, rfl⟩

theorem drawHeadOrientationLoop_isSome (fixed1 : ℚ → String)
    (headAngles : Measurement → Option ℚ) (x : Int) (align_right : Bool) (color : Scalar) :
    ∀ (l : List (Measurement × String)) (padding : Int),
    (∀ p ∈ l, (headAngles p.1).isSome = true) →
    ∃ r, drawHeadOrientationLoop fixed1 headAngles x align_right color l padding = some r := by
  intro l
  induction l with
  | nil => intro padding _; exact ⟨_, rfl⟩
  | cons e rest ih =>
    intro padding h
    obtain ⟨score, hs⟩ := Option.isSome_iff_exists.mp (h e (List.mem_cons_self _ _))
    obtain ⟨r, hr⟩ := ih (padding + spacing) (fun p hp => h p (List.mem_cons_of_mem _ hp))
    simp only [drawHeadOrientationLoop, hs, hr]
    exact ⟨_, rfl⟩

theorem drawEmotions_isSome (emotions : Emotion → Option ℚ) (x : Int) :
    ∀ (l : List (Emotion × String)) (padding : Int),
    (∀ p ∈ l, (emotions p.1).isSome = true) →
    ∃ r, drawEmotions emotions x l padding = some r := by
  intro l
  induction l with
  | nil => intro padding _; exact ⟨_, rfl⟩
  | cons e rest ih =>
    intro padding h
    obtain ⟨score, hs⟩ := Option.isSome_iff_exists.mp (h e (List.mem_cons_self _ _))
    obtain ⟨r, hr⟩ := ih (padding + spacing) (fun p hp => h p (List.mem_cons_of_mem _ hp))
    simp only [drawEmotions, hs, hr]
    exact ⟨_, rfl⟩

theorem drawFaceTail_eq (face : Face) (x padding : Int) :
    ∃ mood_call cat_call, drawFaceTail face x padding = some
      [mood_call,
       DrawCall.text "identity" (id_content face.identity)
         (anchor x (padding + spacing + spacing)) true white,
       DrawCall.classifier "identity_confidence" face.identity.confidence
         (anchor x (padding + spacing + spacing + spacing)) true,
       DrawCall.text "age" (age_content face.age)
         (anchor x (padding + spacing + spacing + spacing + spacing)) true white,
       DrawCall.classifier "age_confidence" face.age.confidence
         (anchor x (padding + spacing + spacing + spacing + spacing + spacing)) true,
       cat_call] := by
  unfold drawFaceTail
  cases hcat : face.age_category <;> exact ⟨_, _, rfl⟩

theorem drawFaceMetrics_tail (fixed1 : ℚ → String) (face : Face)
    (bounding_box : Point × Point) (draw_face_id : Bool) (hc : face.complete) :
    ∃ front mood_call cat_call l1 l2 l3 l4,
      drawFaceMetrics fixed1 face bounding_box draw_face_id = some (front ++
        [mood_call,
         DrawCall.text "identity" (id_content face.identity) l1 true white,
         DrawCall.classifier "identity_confidence" face.identity.confidence l2 true,
         DrawCall.text "age" (age_content face.age) l3 true white,
         DrawCall.classifier "age_confidence" face.age.confidence l4 true,
         cat_call]) := by
  obtain ⟨h1, h2, h3⟩ := hc
  obtain ⟨⟨right, p1⟩, hr⟩ := drawExpressions_isSome fixed1 face.expressions
    (truncToInt bounding_box.2.x) EXPRESSIONS (truncToInt bounding_box.1.y) h1
  obtain ⟨⟨head, p2⟩, hh⟩ := drawHeadOrientationLoop_isSome fixed1 face.measurements
    (truncToInt bounding_box.2.x) false white HEAD_ANGLES p1 h3
  obtain ⟨⟨emos, p3⟩, he⟩ := drawEmotions_isSome face.emotions
    (truncToInt bounding_box.1.x) EMOTIONS (truncToInt bounding_box.1.y) h2
  obtain ⟨mood_call, cat_call, ht⟩ := drawFaceTail_eq face (truncToInt bounding_box.1.x) p3
  refine ⟨right ++ head ++
      (if draw_face_id then
        [DrawCall.text "ID" (to_string face.id)
          (anchor (truncToInt bounding_box.1.x) (truncToInt bounding_box.1.y + spacing))
          false ⟨255, 255, 255⟩]
       else []) ++ emos,
    mood_call, cat_call,
    anchor (truncToInt bounding_box.1.x) (p3 + spacing + spacing),
    anchor (truncToInt bounding_box.1.x) (p3 + spacing + spacing + spacing),
    anchor (truncToInt bounding_box.1.x) (p3 + spacing + spacing + spacing + spacing),
    anchor (truncToInt bounding_box.1.x) (p3 + spacing + spacing + spacing + spacing + spacing),
    ?_⟩
  simp only [drawFaceMetrics, drawHeadOrientation, hr, hh, he, ht]

theorem id_content_unknown_iff (identity : IdentityMetric) :
    id_content identity = "UNKNOWN" ↔ identity.id = -1 := by
  unfold id_content
  constructor
  · intro h
    by_contra hne
    rw [if_neg hne] at h
    exact to_string_ne_unknown _ h
  · intro h; rw [if_pos h]

theorem id_content_ne_minus_one (identity : IdentityMetric) :
    id_content identity ≠ "-1" := by
  unfold id_content
  split_ifs with h
  · decide
  · exact fun he => h (to_string_eq_minus_one _ he)

theorem age_content_unknown_iff (age : AgeMetric) :
    age_content age = "UNKNOWN" ↔ age.years = -1 := by
  unfold age_content
  constructor
  · intro h
    by_contra hne
    rw [if_neg hne] at h
    exact to_string_ne_unknown _ h
  · intro h; rw [if_pos h]

theorem age_content_ne_minus_one (age : AgeMetric) : age_content age ≠ "-1" := by
  unfold age_content
  split_ifs with h
  · decide
  · exact fun he => h (to_string_eq_minus_one _ he)

/-- C7 (sentinel rendering).  For a face whose score maps hold every catalog key,
`drawFaceMetrics` ends with the mood, the identity text, the identity confidence gauge, the
age text, the age confidence gauge and the age category; the identity text value is
"UNKNOWN" exactly when `identity.id = -1` and otherwise the decimal string of the id, the
age text value is "UNKNOWN" exactly when `age.years = -1` and otherwise the decimal string
of the years, and neither value is ever the string "-1". -/
theorem sentinel_rendering (fixed1 : ℚ → String) (face : Face)
    (bounding_box : Point × Point) (draw_face_id : Bool) (hc : face.complete) :
    (∃ front mood_call cat_call l1 l2 l3 l4 id_value age_value,
      drawFaceMetrics fixed1 face bounding_box draw_face_id = some (front ++
        [mood_call,
         DrawCall.text "identity" id_value l1 true white,
         DrawCall.classifier "identity_confidence" face.identity.confidence l2 true,
         DrawCall.text "age" age_value l3 true white,
         DrawCall.classifier "age_confidence" face.age.confidence l4 true,
         cat_call]) ∧
      (id_value = "UNKNOWN" ↔ face.identity.id = -1) ∧
      (face.identity.id ≠ -1 → id_value = to_string face.identity.id) ∧
      id_value ≠ "-1" ∧
      (age_value = "UNKNOWN" ↔ face.age.years = -1) ∧
      (face.age.years ≠ -1 → age_value = to_string face.age.years) ∧
      age_value ≠ "-1") ∧
    to_string (-1) = "-1" := by
  obtain ⟨front, mood_call, cat_call, l1, l2, l3, l4, h⟩ :=
    drawFaceMetrics_tail fixed1 face bounding_box draw_face_id hc
  refine ⟨⟨front, mood_call, cat_call, l1, l2, l3, l4, id_content face.identity,
    age_content face.age, h, id_content_unknown_iff _, ?_, id_content_ne_minus_one _,
    age_content_unknown_iff _, ?_, age_content_ne_minus_one _⟩, by decide⟩
  · intro hne; simp [id_content, hne]
  · intro hne; simp [age_content, hne]

/-- C7, witness: the face `scenarioFace`, whose identity id and age are both `-1`. -/
theorem sentinel_rendering_witness :
    scenarioFace.complete ∧
    ∃ front mood_call cat_call l1 l2 l3 l4 id_value age_value,
      drawFaceMetrics (fun _ => "0.0") scenarioFace scenarioBox false = some (front ++
        [mood_call,
         DrawCall.text "identity" id_value l1 true white,
         DrawCall.classifier "identity_confidence" scenarioFace.identity.confidence l2 true,
         DrawCall.text "age" age_value l3 true white,
         DrawCall.classifier "age_confidence" scenarioFace.age.confidence l4 true,
         cat_call]) ∧
      (id_value = "UNKNOWN" ↔ scenarioFace.identity.id = -1) ∧
      (scenarioFace.identity.id ≠ -1 → id_value = to_string scenarioFace.identity.id) ∧
      id_value ≠ "-1" ∧
      (age_value = "UNKNOWN" ↔ scenarioFace.age.years = -1) ∧
      (scenarioFace.age.years ≠ -1 → age_value = to_string scenarioFace.age.years) ∧
      age_value ≠ "-1" :=
  ⟨by simp [Face.complete, scenarioFace],
   (sentinel_rendering (fun _ => "0.0") scenarioFace scenarioBox false
      (by simp [Face.complete, scenarioFace])).1⟩

/-- C2, counterexample.  In the scenario (identity `{id: -1, confidence: 0.8}`, bounding
box `[(100, 100), (300, 400)]`, frame 1280 × 720) `drawFaceMetrics` draws the text
"identity: UNKNOWN" and then calls `drawClassifierOutput` with the value 0.8; the gauge
receives the magnitude 0.8, not 80, and fills 0 of its 10 blocks, not 8. -/
theorem identity_confidence_counterexample :
    (drawFaceMetrics (fun _ => "0.0") scenarioFace scenarioBox false).map
        (fun calls => (calls.drop 26).take 2) =
      some [DrawCall.text "identity" "UNKNOWN" ⟨100, 300⟩ true white,
            DrawCall.classifier "identity_confidence" (4 / 5) ⟨100, 320⟩ true] ∧
    (drawClassifierOutput "identity_confidence" (4 / 5) ⟨100, 320⟩ true).value = 4 / 5 ∧
    (drawClassifierOutput "identity_confidence" (4 / 5) ⟨100, 320⟩ true).value ≠ 80 ∧
    equalizerBlocks (drawClassifierOutput "identity_confidence" (4 / 5) ⟨100, 320⟩ true).value
      = 0 ∧
    equalizerBlocks (drawClassifierOutput "identity_confidence" (4 / 5) ⟨100, 320⟩ true).value
      ≠ 8 ∧
    drawEqualizerBlocks 1280 720 (4 / 5) ⟨100, 320⟩ true white =
      (List.range 10).map (fun (k : Nat) =>
        Prim.blend ⟨100 - 10 * (k : Int), 310, 8, 10⟩ (3 / 10) gray) := by
  decide!

/-! ## Alpha compositing -/

theorem foldl_keep {K : Type} (F : (Nat → Fin 256) → K → (Nat → Fin 256)) (i : Nat) :
    ∀ (l : List K) (d : Nat → Fin 256),
      (∀ d k, k ∈ l → F d k i = d i) → l.foldl F d i = d i := by
  intro l
  induction l with
  | nil => intro d _; rfl
  | cons k t ih =>
    intro d h
    rw [List.foldl_cons, ih _ (fun d k hk => h d k (List.mem_cons_of_mem _ hk)),
      h d k (List.mem_cons_self _ _)]

theorem foldl_set {K : Type} [DecidableEq K] (F : (Nat → Fin 256) → K → (Nat → Fin 256))
    (i : Nat) (v : Fin 256) (k0 : K) :
    ∀ (l : List K) (d : Nat → Fin 256), k0 ∈ l →
      (∀ d, F d k0 i = v) → (∀ d k, k ∈ l → k ≠ k0 → F d k i = d i) →
      l.foldl F d i = v := by
  have hstay : ∀ (l : List K) (d : Nat → Fin 256), d i = v →
      (∀ d, F d k0 i = v) → (∀ d k, k ∈ l → k ≠ k0 → F d k i = d i) →
      l.foldl F d i = v := by
    intro l
    induction l with
    | nil => intro d hd _ _; exact hd
    | cons k t ih =>
      intro d hd h0 h1
      rw [List.foldl_cons]
      apply ih _ _ h0 (fun d k hk => h1 d k (List.mem_cons_of_mem _ hk))
      by_cases hk : k = k0
      · rw [hk]; exact h0 d
      · rw [h1 d k (List.mem_cons_self _ _) hk]; exact hd
  intro l
  induction l with
  | nil => intro d hm; simp at hm
  | cons k t ih =>
    intro d hm h0 h1
    rw [List.foldl_cons]
    by_cases hk : k = k0
    · subst hk
      exact hstay t _ (h0 d) h0 (fun d k hk => h1 d k (List.mem_cons_of_mem _ hk))
    · have hm' : k0 ∈ t := by
        rcases List.mem_cons.mp hm with h | h
        · exact absurd h.symm hk
        · exact h
      exact ih _ hm' h0 (fun d k hk => h1 d k (List.mem_cons_of_mem _ hk))

theorem mem_takeWhile_range' (p : Nat → Bool) :
    ∀ (n a x : Nat), a ≤ x → x < a + n → (∀ z, a ≤ z → z ≤ x → p z = true) →
      x ∈ (List.range' a n).takeWhile p := by
  intro n
  induction n with
  | zero => intro a x h1 h2 _; omega
  | succ n ih =>
    intro a x h1 h2 hp
    rw [List.range'_succ, List.takeWhile_cons_of_pos (hp a le_rfl h1)]
    by_cases hx : x = a
    · rw [hx]; exact List.mem_cons_self _ _
    · exact List.mem_cons_of_mem _
        (ih (a + 1) x (by omega) (by omega) (fun z hz1 hz2 => hp z (by omega) hz2))

theorem radix_inj (a b a' b' s : Nat) (hb : b < s) (hb' : b' < s)
    (h : a * s + b = a' * s + b') : a = a' ∧ b = b' := by
  have key : ∀ u v w z : Nat, w < s → z < s → u < v → u * s + w ≠ v * s + z := by
    intro u v w z hw _ huv he
    have h1 : (u + 1) * s ≤ v * s := Nat.mul_le_mul_right s huv
    have h2 : (u + 1) * s = u * s + s := by ring
    omega
  rcases lt_trichotomy a a' with h1 | h1 | h1
  · exact absurd h (key a a' b b' hb hb' h1)
  · subst h1; exact ⟨rfl, by omega⟩
  · exact absurd h.symm (key a' a b' b hb' hb h1)

theorem pixel_index_inj (bg : Mat) (hwf : bg.cols * bg.channels ≤ bg.step)
    (x y c x' y' c' : Nat) (hx : x < bg.cols) (hx' : x' < bg.cols)
    (hc : c < bg.channels) (hc' : c' < bg.channels)
    (h : y * bg.step + bg.channels * x + c = y' * bg.step + x' * bg.channels + c') :
    y = y' ∧ x = x' ∧ c = c' := by
  have hb : ∀ u w : Nat, u < bg.cols → w < bg.channels → u * bg.channels + w < bg.step := by
    intro u w hu hw
    have h1 : (u + 1) * bg.channels ≤ bg.cols * bg.channels := Nat.mul_le_mul_right _ hu
    have h2 : (u + 1) * bg.channels = u * bg.channels + bg.channels := by ring
    omega
  have e : bg.channels * x = x * bg.channels := Nat.mul_comm _ _
  have h' : y * bg.step + (x * bg.channels + c) = y' * bg.step + (x' * bg.channels + c') := by
    omega
  obtain ⟨hy, hr⟩ := radix_inj _ _ _ _ _ (hb x c hx hc) (hb x' c' hx' hc') h'
  obtain ⟨hxx, hcc⟩ := radix_inj _ _ _ _ _ hc hc' hr
  exact ⟨hy, hxx, hcc⟩

theorem toUchar_byte (f : Fin 256) : toUchar ((f.val : ℚ)) = f := by
  have h : ((f.val : ℚ)) = (((f.val : Int)) : ℚ) := by push_cast; rfl
  unfold toUchar
  apply Fin.ext
  simp only [h, truncToInt_intCast, Int.toNat_ofNat]
  exact Nat.mod_eq_of_lt f.isLt

theorem overlayChannels_other (fg bg : Mat) (fX fY x y : Nat) (opacity : ℚ) (i : Nat) :
    ∀ (n : Nat) (data : Nat → Fin 256),
      (∀ c, c < n → i ≠ y * bg.step + bg.channels * x + c) →
      (List.range n).foldl (overlayChannel fg bg fX fY x y opacity) data i = data i := by
  intro n data h
  apply foldl_keep
  intro d k hk
  unfold overlayChannel
  exact Function.update_noteq (h k (List.mem_range.mp hk)) _ _

theorem overlayPixel_other (fg bg : Mat) (loc : Point2i) (y x : Nat)
    (data : Nat → Fin 256) (i : Nat)
    (h : ∀ c, c < bg.channels → i ≠ y * bg.step + bg.channels * x + c) :
    overlayPixel fg bg loc y data x i = data i := by
  unfold overlayPixel
  split_ifs
  · exact overlayChannels_other fg bg _ _ x y _ i _ data h
  · rfl

theorem overlayPixel_transparent (fg bg : Mat) (loc : Point2i) (y x : Nat)
    (data : Nat → Fin 256)
    (h : opacityAt fg ((x : Int) - loc.x).toNat ((y : Int) - loc.y).toNat = 0) :
    overlayPixel fg bg loc y data x = data := by
  unfold overlayPixel
  simp only [h]
  rw [if_neg (by norm_num)]

theorem overlayPixel_opaque (fg bg : Mat) (loc : Point2i) (y x c : Nat)
    (data : Nat → Fin 256) (hc : c < bg.channels)
    (h : opacityAt fg ((x : Int) - loc.x).toNat ((y : Int) - loc.y).toNat = 1) :
    overlayPixel fg bg loc y data x (y * bg.step + x * bg.channels + c) =
      fg.data (((y : Int) - loc.y).toNat * fg.step
        + ((x : Int) - loc.x).toNat * fg.channels + c) := by
  unfold overlayPixel
  simp only [h]
  rw [if_pos (by norm_num)]
  apply foldl_set _ _ _ c _ _ (List.mem_range.mpr hc)
  · intro d
    unfold overlayChannel
    rw [Nat.mul_comm bg.channels x, Function.update_same]
    rw [sub_self, mul_zero, zero_add, mul_one]
    exact toUchar_byte _
  · intro d k _ hk
    unfold overlayChannel
    apply Function.update_noteq
    intro he
    apply hk
    have : bg.channels * x = x * bg.channels := Nat.mul_comm _ _
    omega


theorem mem_overlayCols_lt (fg bg : Mat) (loc : Point2i) (x : Nat)
    (h : x ∈ overlayCols fg bg loc) : x < bg.cols := by
  have h1 := List.takeWhile_subset _ h
  rw [List.mem_range'_1] at h1
  omega

theorem mem_overlayCols (fg bg : Mat) (loc : Point2i) (x : Nat)
    (h0 : loc.x ≤ (x : Int)) (h1 : x < bg.cols) (h2 : (x : Int) - loc.x < (fg.cols : Int)) :
    x ∈ overlayCols fg bg loc := by
  unfold overlayCols
  apply mem_takeWhile_range'
  · omega
  · omega
  · intro z _ hz
    simp only [decide_eq_true_eq]
    omega

theorem mem_overlayRows (fg bg : Mat) (loc : Point2i) (y : Nat)
    (h0 : loc.y ≤ (y : Int)) (h1 : y < bg.rows) (h2 : (y : Int) - loc.y < (fg.rows : Int)) :
    y ∈ overlayRows fg bg loc := by
  unfold overlayRows
  apply mem_takeWhile_range'
  · omega
  · omega
  · intro z _ hz
    simp only [decide_eq_true_eq]
    omega

theorem overlayPixel_elsewhere (fg bg : Mat) (loc : Point2i)
    (hwf : bg.cols * bg.channels ≤ bg.step) (x y c x' y' : Nat)
    (hx : x < bg.cols) (hx' : x' < bg.cols) (hc : c < bg.channels)
    (hne : ¬ (y' = y ∧ x' = x)) (data : Nat → Fin 256) :
    overlayPixel fg bg loc y' data x' (y * bg.step + x * bg.channels + c)
      = data (y * bg.step + x * bg.channels + c) := by
  apply overlayPixel_other
  intro c' hc' he
  obtain ⟨e1, e2, -⟩ := pixel_index_inj bg hwf x' y' c' x y c hx' hx hc' hc he.symm
  exact hne ⟨e1, e2⟩

theorem overlayRow_elsewhere (fg bg : Mat) (loc : Point2i)
    (hwf : bg.cols * bg.channels ≤ bg.step) (x y c y' : Nat)
    (hx : x < bg.cols) (hc : c < bg.channels) (hne : y' ≠ y) (data : Nat → Fin 256) :
    overlayRow fg bg loc data y' (y * bg.step + x * bg.channels + c)
      = data (y * bg.step + x * bg.channels + c) := by
  unfold overlayRow
  apply foldl_keep
  intro d x' hx'
  exact overlayPixel_elsewhere fg bg loc hwf x y c x' y' hx
    (mem_overlayCols_lt fg bg loc x' hx') hc (fun h => hne h.1) d

/-- C5 (alpha compositing endpoints in `overlayImage`).  For a background pixel `(x, y)`
covered by the foreground placed at `location`, and each channel `c` of the background:
if the alpha byte of the foreground pixel is 0 the background byte is unchanged, and if it
is 255 the background byte becomes the byte of channel `c` of the foreground pixel.  The
background keeps its rows of at least `cols * channels` bytes apart. -/
theorem overlayImage_alpha_endpoints (foreground background : Mat) (location : Point2i)
    (x y c : Nat)
    (hwf : background.cols * background.channels ≤ background.step)
    (hx0 : location.x ≤ (x : Int)) (hx1 : x < background.cols)
    (hx2 : (x : Int) - location.x < (foreground.cols : Int))
    (hy0 : location.y ≤ (y : Int)) (hy1 : y < background.rows)
    (hy2 : (y : Int) - location.y < (foreground.rows : Int))
    (hc : c < background.channels) :
    (foreground.data (((y : Int) - location.y).toNat * foreground.step
        + ((x : Int) - location.x).toNat * foreground.channels
        + (foreground.channels - 1)) = 0 →
      (overlayImage foreground background location).data
          (y * background.step + x * background.channels + c)
        = background.data (y * background.step + x * background.channels + c)) ∧
    (foreground.data (((y : Int) - location.y).toNat * foreground.step
        + ((x : Int) - location.x).toNat * foreground.channels
        + (foreground.channels - 1)) = 255 →
      (overlayImage foreground background location).data
          (y * background.step + x * background.channels + c)
        = foreground.data (((y : Int) - location.y).toNat * foreground.step
            + ((x : Int) - location.x).toNat * foreground.channels + c)) := by
  constructor
  · intro ha
    have hop : opacityAt foreground ((x : Int) - location.x).toNat
        ((y : Int) - location.y).toNat = 0 := by
      simp [opacityAt, ha]
    unfold overlayImage
    simp only []
    apply foldl_keep
    intro d y' _
    by_cases hy : y' = y
    · subst hy
      unfold overlayRow
      apply foldl_keep
      intro d' x' hx'
      by_cases hx : x' = x
      · subst hx
        rw [overlayPixel_transparent foreground background location y' x' d' hop]
      · exact overlayPixel_elsewhere foreground background location hwf x y' c x' y' hx1
          (mem_overlayCols_lt foreground background location x' hx') hc (fun h => hx h.2) d'
    · exact overlayRow_elsewhere foreground background location hwf x y c y' hx1 hc hy d
  · intro ha
    have hop : opacityAt foreground ((x : Int) - location.x).toNat
        ((y : Int) - location.y).toNat = 1 := by
      have h255 : (((255 : Fin 256).val : Nat) : ℚ) = 255 := by
        rw [show ((255 : Fin 256).val : Nat) = 255 from rfl]; norm_num
      rw [opacityAt, ha, h255]
      norm_num
    unfold overlayImage
    simp only []
    apply foldl_set _ _ _ y _ _ (mem_overlayRows foreground background location y hy0 hy1 hy2)
    · intro d
      unfold overlayRow
      apply foldl_set _ _ _ x _ _
        (mem_overlayCols foreground background location x hx0 hx1 hx2)
      · intro d'
        exact overlayPixel_opaque foreground background location y x c d' hc hop
      · intro d' x' hx' hne
        exact overlayPixel_elsewhere foreground background location hwf x y c x' y hx1
          (mem_overlayCols_lt foreground background location x' hx') hc (fun h => hne h.2) d'
    · intro d y' _ hne
      exact overlayRow_elsewhere foreground background location hwf x y c y' hx1 hc hne d

/-- C5, witness: the opaque second pixel of `sampleForeground`, placed at column 1, replaces
the bytes of the pixel `(2, 0)` of `sampleBackground`. -/
theorem overlayImage_alpha_endpoints_witness :
    sampleBackground.cols * sampleBackground.channels ≤ sampleBackground.step ∧
    (1 : Int) ≤ ((2 : Nat) : Int) ∧ 2 < sampleBackground.cols ∧
    ((2 : Nat) : Int) - 1 < (sampleForeground.cols : Int) ∧
    (0 : Int) ≤ ((0 : Nat) : Int) ∧ 0 < sampleBackground.rows ∧
    ((0 : Nat) : Int) - 0 < (sampleForeground.rows : Int) ∧
    1 < sampleBackground.channels ∧
    sampleForeground.data 7 = 255 ∧
    (overlayImage sampleForeground sampleBackground ⟨1, 0⟩).data 7 = sampleForeground.data 5 :=
  ⟨by decide, by decide, by decide, by decide, by decide, by decide, by decide, by decide,
   by decide,
   (overlayImage_alpha_endpoints sampleForeground sampleBackground ⟨1, 0⟩ 2 0 1
      (by decide) (by decide) (by decide) (by decide) (by decide) (by decide) (by decide)
      (by decide)).2 (by decide)⟩

/-! ## Gauge: blocks passed over -/

theorem equalizerLoop_skip_all (imgW imgH j blocks : Int) (align_right : Bool)
    (color : Scalar) (i : Int)
    (h : (blockRect imgW imgH i j).height < 0 ∨ (blockRect imgW imgH i j).width < 0) :
    ∀ (n : Nat) (x : Int), equalizerLoop imgW imgH j blocks align_right color n x i = [] := by
  intro n
  induction n with
  | zero => intro x; rfl
  | succ n ih =>
    intro x
    unfold equalizerLoop
    simp only []
    rw [if_pos h]
    exact ih _

/-- C11, the code at a failing input.  On a frame of 100 × 50 a right-justified gauge
anchored at `(105, 30)`, 5 columns past the right edge, draws no block at all and only
its label, although for each of the blocks 1 to 9 the rectangle clipped at its own column
`105 - 10 k` has non-negative width and height (blocks 2 to 9 lie inside the frame). -/
theorem equalizer_skip_stalls :
    drawEqualizerBlocks 100 50 50 ⟨105, 30⟩ true white = [] ∧
    drawEqualizer (fun s => 10 * (s.length : Int)) 100 50 "joy" 50 ⟨105, 30⟩ true white =
      drawEqualizerLabel (fun s => 10 * (s.length : Int)) "joy" ⟨105, 30⟩ true ∧
    (blockRect 100 50 (blockColumn ⟨105, 30⟩ true 0) (blockRow ⟨105, 30⟩)).width < 0 ∧
    (∀ k : Nat, k < 10 → 1 ≤ k →
      blockColumn ⟨105, 30⟩ true k = 105 - 10 * (k : Int) ∧
      0 ≤ (blockRect 100 50 (blockColumn ⟨105, 30⟩ true k) (blockRow ⟨105, 30⟩)).width ∧
      0 ≤ (blockRect 100 50 (blockColumn ⟨105, 30⟩ true k) (blockRow ⟨105, 30⟩)).height) ∧
    (∀ k : Nat, k < 10 → 2 ≤ k →
      (Rect.mk (blockColumn ⟨105, 30⟩ true k) (blockRow ⟨105, 30⟩) 8 10).inside 100 50) := by
  decide!

/-! ## Layout of the stacks -/

theorem stackAnchors_succ (x y0 : Int) (n : Nat) :
    stackAnchors x y0 (n + 1) = anchor x (y0 + spacing) :: stackAnchors x (y0 + spacing) n := by
  unfold stackAnchors
  rw [List.range_succ_eq_map, List.map_cons, List.map_map]
  have h0 : anchor x (y0 + 20 * (((0 : Nat) : Int) + 1)) = anchor x (y0 + spacing) := by
    simp [spacing]
  rw [h0]
  congr 1
  apply List.map_congr_left
  intro k _
  simp only [Function.comp, Nat.succ_eq_add_one, Nat.cast_add, Nat.cast_one, spacing]
  congr 1
  ring

theorem stackAnchors_append (x y0 : Int) (m : Nat) : ∀ n : Nat,
    stackAnchors x y0 (n + m) = stackAnchors x y0 n ++ stackAnchors x (y0 + 20 * (n : Int)) m := by
  intro n
  induction n generalizing y0 with
  | zero => simp [stackAnchors]
  | succ n ih =>
    rw [show n + 1 + m = (n + m) + 1 by omega, stackAnchors_succ, stackAnchors_succ, ih,
      List.cons_append]
    congr 2
    simp only [spacing, Nat.cast_add, Nat.cast_one]
    congr 1
    ring

theorem stackAnchors_y_nodup (x y0 : Int) (n : Nat) :
    ((stackAnchors x y0 n).map (fun p => p.y)).Nodup := by
  unfold stackAnchors
  rw [List.map_map]
  apply List.Nodup.map _ (List.nodup_range n)
  intro a b h
  simp only [Function.comp, anchor] at h
  have h' : (y0 + 20 * ((a : Int) + 1)) = (y0 + 20 * ((b : Int) + 1)) := by exact_mod_cast h
  omega

theorem drawExpressions_layout (fixed1 : ℚ → String) (expressions : Expression → Option ℚ)
    (x : Int) : ∀ (l : List (Expression × String)) (padding : Int),
    (∀ p ∈ l, (expressions p.1).isSome = true) →
    ∃ calls, drawExpressions fixed1 expressions x l padding
        = some (calls, padding + 20 * (l.length : Int)) ∧
      calls.map DrawCall.name = l.map Prod.snd ∧
      calls.map DrawCall.loc = stackAnchors x padding l.length ∧
      calls.map DrawCall.align_right = List.replicate l.length false := by
  intro l
  induction l with
  | nil => intro padding _; exact ⟨[], by simp [drawExpressions], rfl, rfl, rfl⟩
  | cons e rest ih =>
    intro padding h
    obtain ⟨score, hs⟩ := Option.isSome_iff_exists.mp (h e (List.mem_cons_self _ _))
    obtain ⟨calls, hr, h1, h2, h3⟩ :=
      ih (padding + spacing) (fun p hp => h p (List.mem_cons_of_mem _ hp))
    refine ⟨(if e.1 = Expression.BLINK_RATE then
        DrawCall.text e.2 (fixed1 score) (anchor x (padding + spacing)) false ⟨255, 255, 255⟩
      else
        DrawCall.classifier e.2 (if e.1 = Expression.BLINK then score * 100 else score)
          (anchor x (padding + spacing)) false) :: calls, ?_, ?_, ?_, ?_⟩
    · have e1 : padding + 20 * (((e :: rest).length : Nat) : Int)
          = padding + spacing + 20 * (rest.length : Int) := by
        simp only [List.length_cons, Nat.cast_add, Nat.cast_one, spacing]
        ring
      rw [e1]
      simp only [drawExpressions, hs, hr]
    · rw [List.map_cons, List.map_cons, h1]
      congr 1
      split_ifs <;> rfl
    · rw [List.map_cons, List.length_cons, stackAnchors_succ, h2]
      congr 1
      split_ifs <;> rfl
    · rw [List.map_cons, List.length_cons, List.replicate_succ, h3]
      congr 1
      split_ifs <;> rfl

theorem drawHeadOrientationLoop_layout (fixed1 : ℚ → String)
    (headAngles : Measurement → Option ℚ) (x : Int) (align_right : Bool) (color : Scalar) :
    ∀ (l : List (Measurement × String)) (padding : Int),
    (∀ p ∈ l, (headAngles p.1).isSome = true) →
    ∃ calls, drawHeadOrientationLoop fixed1 headAngles x align_right color l padding
        = some (calls, padding + 20 * (l.length : Int)) ∧
      calls.map DrawCall.name = l.map Prod.snd ∧
      calls.map DrawCall.loc = stackAnchors x padding l.length ∧
      calls.map DrawCall.align_right = List.replicate l.length align_right := by
  intro l
  induction l with
  | nil => intro padding _; exact ⟨[], by simp [drawHeadOrientationLoop], rfl, rfl, rfl⟩
  | cons e rest ih =>
    intro padding h
    obtain ⟨score, hs⟩ := Option.isSome_iff_exists.mp (h e (List.mem_cons_self _ _))
    obtain ⟨calls, hr, h1, h2, h3⟩ :=
      ih (padding + spacing) (fun p hp => h p (List.mem_cons_of_mem _ hp))
    refine ⟨DrawCall.text e.2 (fixed1 score) (anchor x (padding + spacing)) align_right color
      :: calls, ?_, ?_, ?_, ?_⟩
    · have e1 : padding + 20 * (((e :: rest).length : Nat) : Int)
          = padding + spacing + 20 * (rest.length : Int) := by
        simp only [List.length_cons, Nat.cast_add, Nat.cast_one, spacing]
        ring
      rw [e1]
      simp only [drawHeadOrientationLoop, hs, hr]
    · rw [List.map_cons, List.map_cons, h1]; rfl
    · rw [List.map_cons, List.length_cons, stackAnchors_succ, h2]; rfl
    · rw [List.map_cons, List.length_cons, List.replicate_succ, h3]; rfl

theorem drawEmotions_layout (emotions : Emotion → Option ℚ) (x : Int) :
    ∀ (l : List (Emotion × String)) (padding : Int),
    (∀ p ∈ l, (emotions p.1).isSome = true) →
    ∃ calls, drawEmotions emotions x l padding
        = some (calls, padding + 20 * (l.length : Int)) ∧
      calls.map DrawCall.name = l.map Prod.snd ∧
      calls.map DrawCall.loc = stackAnchors x padding l.length ∧
      calls.map DrawCall.align_right = List.replicate l.length true := by
  intro l
  induction l with
  | nil => intro padding _; exact ⟨[], by simp [drawEmotions], rfl, rfl, rfl⟩
  | cons e rest ih =>
    intro padding h
    obtain ⟨score, hs⟩ := Option.isSome_iff_exists.mp (h e (List.mem_cons_self _ _))
    obtain ⟨calls, hr, h1, h2, h3⟩ :=
      ih (padding + spacing) (fun p hp => h p (List.mem_cons_of_mem _ hp))
    refine ⟨DrawCall.classifier e.2 score (anchor x (padding + spacing)) true :: calls,
      ?_, ?_, ?_, ?_⟩
    · have e1 : padding + 20 * (((e :: rest).length : Nat) : Int)
          = padding + spacing + 20 * (rest.length : Int) := by
        simp only [List.length_cons, Nat.cast_add, Nat.cast_one, spacing]
        ring
      rw [e1]
      simp only [drawEmotions, hs, hr]
    · rw [List.map_cons, List.map_cons, h1]; rfl
    · rw [List.map_cons, List.length_cons, stackAnchors_succ, h2]; rfl
    · rw [List.map_cons, List.length_cons, List.replicate_succ, h3]; rfl

theorem drawFaceTail_layout (face : Face) (x padding : Int) :
    ∃ calls, drawFaceTail face x padding = some calls ∧
      calls.map DrawCall.name =
        ["mood", "identity", "identity_confidence", "age", "age_confidence", "age_category"] ∧
      calls.map DrawCall.loc = stackAnchors x padding 6 ∧
      calls.map DrawCall.align_right = List.replicate 6 true := by
  have hs : stackAnchors x padding 6 =
      [anchor x (padding + spacing),
       anchor x (padding + spacing + spacing),
       anchor x (padding + spacing + spacing + spacing),
       anchor x (padding + spacing + spacing + spacing + spacing),
       anchor x (padding + spacing + spacing + spacing + spacing + spacing),
       anchor x (padding + spacing + spacing + spacing + spacing + spacing + spacing)] := by
    simp only [stackAnchors_succ]
    rfl
  rw [hs]
  unfold drawFaceTail
  cases hcat : face.age_category <;> exact ⟨_, rfl, rfl, rfl, rfl⟩

theorem drawFaceMetrics_layout (fixed1 : ℚ → String) (face : Face)
    (bounding_box : Point × Point) (draw_face_id : Bool) (hc : face.complete) :
    ∃ right left,
      drawFaceMetrics fixed1 face bounding_box draw_face_id = some (right ++
        (if draw_face_id then
          [DrawCall.text "ID" (to_string face.id)
            (anchor (truncToInt bounding_box.1.x) (truncToInt bounding_box.1.y + 20))
            false white]
         else []) ++ left) ∧
      right.map DrawCall.name = rightNames ∧
      right.map DrawCall.loc
        = stackAnchors (truncToInt bounding_box.2.x) (truncToInt bounding_box.1.y) 17 ∧
      right.map DrawCall.align_right = List.replicate 17 false ∧
      left.map DrawCall.name = leftNames ∧
      left.map DrawCall.loc
        = stackAnchors (truncToInt bounding_box.1.x) (truncToInt bounding_box.1.y) 14 ∧
      left.map DrawCall.align_right = List.replicate 14 true := by
  obtain ⟨h1, h2, h3⟩ := hc
  obtain ⟨exprs, hr, hr1, hr2, hr3⟩ := drawExpressions_layout fixed1 face.expressions
    (truncToInt bounding_box.2.x) EXPRESSIONS (truncToInt bounding_box.1.y) h1
  obtain ⟨head, hh, hh1, hh2, hh3⟩ := drawHeadOrientationLoop_layout fixed1 face.measurements
    (truncToInt bounding_box.2.x) false white HEAD_ANGLES
    (truncToInt bounding_box.1.y + 20 * (EXPRESSIONS.length : Int)) h3
  obtain ⟨emos, he, he1, he2, he3⟩ := drawEmotions_layout face.emotions
    (truncToInt bounding_box.1.x) EMOTIONS (truncToInt bounding_box.1.y) h2
  obtain ⟨tail, ht, ht1, ht2, ht3⟩ := drawFaceTail_layout face (truncToInt bounding_box.1.x)
    (truncToInt bounding_box.1.y + 20 * (EMOTIONS.length : Int))
  have hE : EXPRESSIONS.length = 14 := rfl
  have hH : HEAD_ANGLES.length = 3 := rfl
  have hM : EMOTIONS.length = 8 := rfl
  refine ⟨exprs ++ head, emos ++ tail, ?_, ?_, ?_, ?_, ?_, ?_, ?_⟩
  · simp only [drawFaceMetrics, drawHeadOrientation, hr, hh, he, ht]
    simp only [spacing, List.append_assoc]
    rfl
  · rw [List.map_append, hr1, hh1]; rfl
  · rw [List.map_append, hr2, hh2, hE, hH]
    exact (stackAnchors_append _ _ 3 14).symm
  · rw [List.map_append, hr3, hh3, hE, hH]; rfl
  · rw [List.map_append, he1, ht1]; rfl
  · rw [List.map_append, he2, ht2, hM]
    exact (stackAnchors_append _ _ 6 8).symm
  · rw [List.map_append, he3, ht3, hM]; rfl

/-- C12, counterexample.  With `draw_face_id = true` the calls 18 and 19 of
`drawFaceMetrics` are the "ID" text and the "joy" gauge, both anchored at the left edge of
the box in the row `y0 + 20`: the "ID" entry does not advance the cursor and the two
entries share a row. -/
theorem layout_cursor_counterexample :
    (drawFaceMetrics (fun _ => "0.0") scenarioFace scenarioBox true).map
        (fun calls => (calls.drop 17).take 2) =
      some [DrawCall.text "ID" "0" ⟨100, 120⟩ false white,
            DrawCall.classifier "joy" 0 ⟨100, 120⟩ true] := by
  decide!

/-- C12, amended.  For every face with complete score maps, every bounding box (top edge
`y0`, as converted to `int`) and both values of `draw_face_id`: the 17 entries anchored at
the right edge of the box (the 14 expressions in catalog order, then pitch, yaw, roll) get
the rows `y0 + 20 k`, `k = 1..17`; the 14 entries of the stack anchored at the left edge
(the 8 emotions, mood, identity, identity confidence, age, age confidence, age category)
get the rows `y0 + 20 k`, `k = 1..14`; within each stack no two entries share a row.  When
`draw_face_id` is true one more entry, the "ID" text, is drawn between the two stacks at
the left edge in the row `y0 + 20`, without advancing the cursor. -/
theorem layout_cursor_stacking (fixed1 : ℚ → String) (face : Face)
    (bounding_box : Point × Point) (draw_face_id : Bool) (hc : face.complete) :
    (∃ right left,
      drawFaceMetrics fixed1 face bounding_box draw_face_id = some (right ++
        (if draw_face_id then
          [DrawCall.text "ID" (to_string face.id)
            (anchor (truncToInt bounding_box.1.x) (truncToInt bounding_box.1.y + 20))
            false white]
         else []) ++ left) ∧
      right.map DrawCall.name = rightNames ∧
      right.map DrawCall.loc =
        (List.range 17).map (fun (k : Nat) =>
          anchor (truncToInt bounding_box.2.x)
            (truncToInt bounding_box.1.y + 20 * ((k : Int) + 1))) ∧
      left.map DrawCall.name = leftNames ∧
      left.map DrawCall.loc =
        (List.range 14).map (fun (k : Nat) =>
          anchor (truncToInt bounding_box.1.x)
            (truncToInt bounding_box.1.y + 20 * ((k : Int) + 1))) ∧
      (right.map (fun c => c.loc.y)).Nodup ∧
      (left.map (fun c => c.loc.y)).Nodup) ∧
    rightNames =
      ["smile", "browRaise", "browFurrow", "noseWrinkle", "upperLipRaise", "mouthOpen",
       "eyeClosure", "cheekRaise", "yawn", "blink", "blinkRate", "eyeWiden",
       "innerBrowRaise", "lipCornerDepressor", "pitch", "yaw", "roll"] ∧
    leftNames =
      ["joy", "anger", "surprise", "valence", "fear", "sadness", "disgust", "neutral",
       "mood", "identity", "identity_confidence", "age", "age_confidence", "age_category"] := by
  obtain ⟨right, left, h, hr1, hr2, -, hl1, hl2, -⟩ :=
    drawFaceMetrics_layout fixed1 face bounding_box draw_face_id hc
  refine ⟨⟨right, left, h, hr1, hr2, hl1, hl2, ?_, ?_⟩, rfl, rfl⟩
  · have e : right.map (fun c => c.loc.y) = (right.map DrawCall.loc).map (fun p => p.y) := by
      rw [List.map_map]; rfl
    rw [e, hr2]
    exact stackAnchors_y_nodup _ _ _
  · have e : left.map (fun c => c.loc.y) = (left.map DrawCall.loc).map (fun p => p.y) := by
      rw [List.map_map]; rfl
    rw [e, hl2]
    exact stackAnchors_y_nodup _ _ _

/-- C12, witness of the amended statement: the face `scenarioFace`, with the "ID" text. -/
theorem layout_cursor_stacking_witness :
    scenarioFace.complete ∧
    ∃ right left,
      drawFaceMetrics (fun _ => "0.0") scenarioFace scenarioBox true = some (right ++
        (if true = true then
          [DrawCall.text "ID" (to_string scenarioFace.id)
            (anchor (truncToInt scenarioBox.1.x) (truncToInt scenarioBox.1.y + 20))
            false white]
         else []) ++ left) ∧
      right.map DrawCall.name = rightNames ∧
      right.map DrawCall.loc =
        (List.range 17).map (fun (k : Nat) =>
          anchor (truncToInt scenarioBox.2.x)
            (truncToInt scenarioBox.1.y + 20 * ((k : Int) + 1))) ∧
      left.map DrawCall.name = leftNames ∧
      left.map DrawCall.loc =
        (List.range 14).map (fun (k : Nat) =>
          anchor (truncToInt scenarioBox.1.x)
            (truncToInt scenarioBox.1.y + 20 * ((k : Int) + 1))) ∧
      (right.map (fun c => c.loc.y)).Nodup ∧
      (left.map (fun c => c.loc.y)).Nodup :=
  ⟨by simp [Face.complete, scenarioFace],
   (layout_cursor_stacking (fun _ => "0.0") scenarioFace scenarioBox true
      (by simp [Face.complete, scenarioFace])).1⟩

/-- C13, counterexample.  For the face `scenarioFace` the 17 entries at the right edge of
the box are drawn with `align_right = false` and the 14 entries at the left edge with
`align_right = true`. -/
theorem justification_counterexample :
    (drawFaceMetrics (fun _ => "0.0") scenarioFace scenarioBox false).map
        (fun calls => calls.map (fun c => (c.name, c.loc.x, c.align_right))) =
      some [("smile", 300, false), ("browRaise", 300, false), ("browFurrow", 300, false),
            ("noseWrinkle", 300, false), ("upperLipRaise", 300, false),
            ("mouthOpen", 300, false), ("eyeClosure", 300, false),
            ("cheekRaise", 300, false), ("yawn", 300, false), ("blink", 300, false),
            ("blinkRate", 300, false), ("eyeWiden", 300, false),
            ("innerBrowRaise", 300, false), ("lipCornerDepressor", 300, false),
            ("pitch", 300, false), ("yaw", 300, false), ("roll", 300, false),
            ("joy", 100, true), ("anger", 100, true), ("surprise", 100, true),
            ("valence", 100, true), ("fear", 100, true), ("sadness", 100, true),
            ("disgust", 100, true), ("neutral", 100, true), ("mood", 100, true),
            ("identity", 100, true), ("identity_confidence", 100, true),
            ("age", 100, true), ("age_confidence", 100, true),
            ("age_category", 100, true)] := by
  decide!

/-- C13, amended.  For every face with complete score maps, every bounding box and both
values of `draw_face_id`: every entry of the left-side stack (emotion gauges, mood,
identity and its confidence gauge, age and its confidence gauge, age category) is drawn
right-justified (`align_right = true`) at the left edge of the box, and every right-side
entry (expression gauges, blink rate, head angles) is drawn left-justified
(`align_right = false`) at the right edge of the box. -/
theorem justification_by_side (fixed1 : ℚ → String) (face : Face)
    (bounding_box : Point × Point) (draw_face_id : Bool) (hc : face.complete) :
    ∃ right id_calls left,
      drawFaceMetrics fixed1 face bounding_box draw_face_id
        = some (right ++ id_calls ++ left) ∧
      id_calls.length ≤ 1 ∧
      right.map DrawCall.name = rightNames ∧
      (∀ c ∈ right, c.align_right = false ∧ c.loc.x = (truncToInt bounding_box.2.x : ℚ)) ∧
      left.map DrawCall.name = leftNames ∧
      (∀ c ∈ left, c.align_right = true ∧ c.loc.x = (truncToInt bounding_box.1.x : ℚ)) := by
  obtain ⟨right, left, h, hr1, hr2, hr3, hl1, hl2, hl3⟩ :=
    drawFaceMetrics_layout fixed1 face bounding_box draw_face_id hc
  refine ⟨right, _, left, h, ?_, hr1, ?_, hl1, ?_⟩
  · split_ifs <;> simp
  · intro c hcm
    constructor
    · have := List.mem_map_of_mem DrawCall.align_right hcm
      rw [hr3] at this
      exact List.eq_of_mem_replicate this
    · have := List.mem_map_of_mem DrawCall.loc hcm
      rw [hr2] at this
      simp only [stackAnchors, List.mem_map] at this
      obtain ⟨k, -, hk⟩ := this
      rw [← hk]; rfl
  · intro c hcm
    constructor
    · have := List.mem_map_of_mem DrawCall.align_right hcm
      rw [hl3] at this
      exact List.eq_of_mem_replicate this
    · have := List.mem_map_of_mem DrawCall.loc hcm
      rw [hl2] at this
      simp only [stackAnchors, List.mem_map] at this
      obtain ⟨k, -, hk⟩ := this
      rw [← hk]; rfl

/-- C13, witness of the amended statement: the face `scenarioFace`. -/
theorem justification_by_side_witness :
    scenarioFace.complete ∧
    ∃ right id_calls left,
      drawFaceMetrics (fun _ => "0.0") scenarioFace scenarioBox false
        = some (right ++ id_calls ++ left) ∧
      id_calls.length ≤ 1 ∧
      right.map DrawCall.name = rightNames ∧
      (∀ c ∈ right, c.align_right = false ∧ c.loc.x = (truncToInt scenarioBox.2.x : ℚ)) ∧
      left.map DrawCall.name = leftNames ∧
      (∀ c ∈ left, c.align_right = true ∧ c.loc.x = (truncToInt scenarioBox.1.x : ℚ)) :=
  ⟨by simp [Face.complete, scenarioFace],
   justification_by_side (fun _ => "0.0") scenarioFace scenarioBox false
     (by simp [Face.complete, scenarioFace])⟩

/-! ## Overlay resize -/

theorem one_le_of_truncToInt {q : ℚ} (h : 1 ≤ truncToInt q) : 1 ≤ q := by
  unfold truncToInt at h
  split_ifs at h with h0
  · have := Int.le_floor.mp h
    exact_mod_cast this
  · have hc : ⌈q⌉ ≤ 0 := Int.ceil_le.mpr (by push_cast; linarith)
    omega

theorem stampLogo_eq (resize_branch : Bool) (v : Visualizer) :
    stampLogo resize_branch v = ⟨resize_branch, (stampLogo true v).outcome, v⟩ := by
  unfold stampLogo
  split_ifs <;> rfl

theorem stampLogo_outcome (v : Visualizer) :
    (stampLogo true v).outcome ≠ UpdateOutcome.resizeError := by
  unfold stampLogo
  split_ifs <;> simp

theorem updateImage_first (small_logo frame : Size)
    (hw : 1 ≤ truncToInt (min (small_logo.width : ℚ) ((1 / 4 : ℚ) * (frame.width : ℚ))))
    (hh : 1 ≤ truncToInt (fl64 (min (small_logo.width : ℚ) ((1 / 4 : ℚ) * (frame.width : ℚ))
        * fl64 ((small_logo.height : ℚ) / (small_logo.width : ℚ))))) :
    updateImage (Visualizer.new small_logo) frame =
      stampLogo true
        ⟨frame,
         ⟨truncToInt (min (small_logo.width : ℚ) ((1 / 4 : ℚ) * (frame.width : ℚ))),
          truncToInt (fl64 (min (small_logo.width : ℚ) ((1 / 4 : ℚ) * (frame.width : ℚ))
            * fl64 ((small_logo.height : ℚ) / (small_logo.width : ℚ))))⟩,
         true⟩ := by
  have hmin : (if (small_logo.width : ℚ) > (frame.width : ℚ) * (1 / 4)
        then (frame.width : ℚ) * (1 / 4) else (small_logo.width : ℚ))
      = min (small_logo.width : ℚ) ((1 / 4 : ℚ) * (frame.width : ℚ)) := by
    by_cases h : (small_logo.width : ℚ) > (frame.width : ℚ) * (1 / 4)
    · rw [if_pos h, min_eq_right (by linarith)]; ring
    · rw [if_neg h, min_eq_left (by linarith)]
  have hw1 := one_le_of_truncToInt hw
  have hh1 := one_le_of_truncToInt hh
  have hlw : (1 : ℚ) ≤ (small_logo.width : ℚ) := le_trans hw1 (min_le_left _ _)
  have hlw' : 1 ≤ small_logo.width := by exact_mod_cast hlw
  have hlh' : 1 ≤ small_logo.height := by
    by_contra hneg
    have h0 : (small_logo.height : ℚ) ≤ 0 := by
      have : small_logo.height ≤ 0 := by omega
      exact_mod_cast this
    have h1 : fl64 ((small_logo.height : ℚ) / (small_logo.width : ℚ)) ≤ 0 := by
      have := fl64_mono (div_nonpos_of_nonpos_of_nonneg h0 (by linarith : (0 : ℚ) ≤ small_logo.width))
      rwa [fl64_zero] at this
    have h2 : fl64 (min (small_logo.width : ℚ) ((1 / 4 : ℚ) * (frame.width : ℚ))
        * fl64 ((small_logo.height : ℚ) / (small_logo.width : ℚ))) ≤ 0 := by
      have := fl64_mono (mul_nonpos_of_nonneg_of_nonpos (by linarith : (0 : ℚ) ≤
        min (small_logo.width : ℚ) ((1 / 4 : ℚ) * (frame.width : ℚ))) h1)
      rwa [fl64_zero] at this
    linarith
  have he1 : small_logo.empty = false := by
    simp only [Size.empty, Bool.or_eq_false_iff, decide_eq_false_iff_not, not_le]
    omega
  have he2 : (Size.mk
      (truncToInt (min (small_logo.width : ℚ) ((1 / 4 : ℚ) * (frame.width : ℚ))))
      (truncToInt (fl64 (min (small_logo.width : ℚ) ((1 / 4 : ℚ) * (frame.width : ℚ))
        * fl64 ((small_logo.height : ℚ) / (small_logo.width : ℚ)))))).empty = false := by
    simp only [Size.empty, Bool.or_eq_false_iff, decide_eq_false_iff_not, not_le]
    omega
  simp only [updateImage, Visualizer.new, Bool.not_false, if_true, hmin, he1, he2,
    Bool.or_self, Bool.false_eq_true, if_false]

theorem updateImage_later (v : Visualizer) (h : v.logo_resized = true) :
    updateImage v v.img = stampLogo false v := by
  obtain ⟨img, logo, r⟩ := v
  simp only at h
  subst h
  simp [updateImage]

theorem updateImageRun_later (v : Visualizer) (h : v.logo_resized = true) (n : Nat) :
    updateImageRun v (List.replicate n v.img) = List.replicate n (stampLogo false v) := by
  induction n with
  | zero => rfl
  | succ n ih =>
    rw [List.replicate_succ, List.replicate_succ, updateImageRun, updateImage_later v h]
    have : (stampLogo false v).after = v := by rw [stampLogo_eq]
    rw [this, ih]

theorem updateImageRun_resized (small_logo frame : Size) (n : Nat) (s : Visualizer)
    (h1 : updateImage (Visualizer.new small_logo) frame = stampLogo true s)
    (h2 : s.logo_resized = true) (h3 : s.img = frame) :
    ∃ o, o ≠ UpdateOutcome.resizeError ∧
      updateImageRun (Visualizer.new small_logo) (List.replicate (n + 1) frame) =
        (⟨true, o, s⟩ : UpdateStep) :: List.replicate n (⟨false, o, s⟩ : UpdateStep) := by
  refine ⟨(stampLogo true s).outcome, stampLogo_outcome s, ?_⟩
  rw [List.replicate_succ, updateImageRun, h1, stampLogo_eq true]
  congr 1
  have h := updateImageRun_later s h2 n
  rw [h3, stampLogo_eq false] at h
  exact h

/-- C9, counterexample.  For an overlay of 300 × 110 on a frame 1280 wide the code resizes
the overlay to 300 × 109, the truncation of the `double` product `300 * (110.0 / 300)`,
where the formula of the claim gives the height 110.  For an overlay of 40 × 20 on a frame
3 wide the computed size is empty, `cv::resize` raises its error before `logo_resized` is
set, and the resize branch runs in every call. -/
theorem overlay_resize_counterexample :
    (updateImage (Visualizer.new ⟨300, 110⟩) ⟨1280, 720⟩).after.logo = ⟨300, 109⟩ ∧
    truncToInt (min (300 : ℚ) ((1 / 4 : ℚ) * 1280) * 110 / 300) = 110 ∧
    updateImageRun (Visualizer.new ⟨40, 20⟩) (List.replicate 3 ⟨3, 3⟩) =
      List.replicate 3 ⟨true, UpdateOutcome.resizeError, ⟨⟨3, 3⟩, ⟨40, 20⟩, false⟩⟩ := by
  decide!

/-- C9, amended.  In a sequence of `n + 1` calls of `updateImage` with frames of one size,
starting from a new `Visualizer`, when the overlay size computed in the first call is not
empty: the resize branch runs in the first call and in no later call, no call raises the
error of `cv::resize`, and after every call `logo_resized` is true and the overlay has
width `trunc(min(overlay_width, 0.25 * frame_width))` and height `trunc(w * (overlay_height
/ overlay_width))`, for `w = min(overlay_width, 0.25 * frame_width)`, with the quotient and
the product each rounded to `double`. -/
theorem overlay_resized_once (small_logo frame : Size) (n : Nat)
    (hw : 1 ≤ truncToInt (min (small_logo.width : ℚ) ((1 / 4 : ℚ) * (frame.width : ℚ))))
    (hh : 1 ≤ truncToInt (fl64 (min (small_logo.width : ℚ) ((1 / 4 : ℚ) * (frame.width : ℚ))
        * fl64 ((small_logo.height : ℚ) / (small_logo.width : ℚ))))) :
    ∃ o, o ≠ UpdateOutcome.resizeError ∧
      updateImageRun (Visualizer.new small_logo) (List.replicate (n + 1) frame) =
        (⟨true, o,
          ⟨frame,
           ⟨truncToInt (min (small_logo.width : ℚ) ((1 / 4 : ℚ) * (frame.width : ℚ))),
            truncToInt (fl64 (min (small_logo.width : ℚ) ((1 / 4 : ℚ) * (frame.width : ℚ))
              * fl64 ((small_logo.height : ℚ) / (small_logo.width : ℚ))))⟩,
           true⟩⟩ : UpdateStep) ::
        List.replicate n
          (⟨false, o,
            ⟨frame,
             ⟨truncToInt (min (small_logo.width : ℚ) ((1 / 4 : ℚ) * (frame.width : ℚ))),
              truncToInt (fl64 (min (small_logo.width : ℚ) ((1 / 4 : ℚ) * (frame.width : ℚ))
                * fl64 ((small_logo.height : ℚ) / (small_logo.width : ℚ))))⟩,
             true⟩⟩ : UpdateStep) := by
  exact updateImageRun_resized small_logo frame n _
    (updateImage_first small_logo frame hw hh) rfl rfl

/-- C9, witness of the amended statement: an overlay of 300 × 110 and three frames of
1280 × 720; the overlay is resized once, to 300 × 109. -/
theorem overlay_resized_once_witness :
    (1 ≤ truncToInt (min (((300 : Int) : ℚ)) ((1 / 4 : ℚ) * ((1280 : Int) : ℚ)))) ∧
    (1 ≤ truncToInt (fl64 (min (((300 : Int) : ℚ)) ((1 / 4 : ℚ) * ((1280 : Int) : ℚ))
        * fl64 (((110 : Int) : ℚ) / ((300 : Int) : ℚ))))) ∧
    updateImageRun (Visualizer.new ⟨300, 110⟩) (List.replicate 3 ⟨1280, 720⟩) =
      [⟨true, UpdateOutcome.returned, ⟨⟨1280, 720⟩, ⟨300, 109⟩, true⟩⟩,
       ⟨false, UpdateOutcome.returned, ⟨⟨1280, 720⟩, ⟨300, 109⟩, true⟩⟩,
       ⟨false, UpdateOutcome.returned, ⟨⟨1280, 720⟩, ⟨300, 109⟩, true⟩⟩] ∧
    ∃ o, o ≠ UpdateOutcome.resizeError ∧
      updateImageRun (Visualizer.new ⟨300, 110⟩) (List.replicate (2 + 1) ⟨1280, 720⟩) =
        (⟨true, o,
          ⟨⟨1280, 720⟩,
           ⟨truncToInt (min (((300 : Int) : ℚ)) ((1 / 4 : ℚ) * ((1280 : Int) : ℚ))),
            truncToInt (fl64 (min (((300 : Int) : ℚ)) ((1 / 4 : ℚ) * ((1280 : Int) : ℚ))
              * fl64 (((110 : Int) : ℚ) / ((300 : Int) : ℚ))))⟩,
           true⟩⟩ : UpdateStep) ::
        List.replicate 2
          (⟨false, o,
            ⟨⟨1280, 720⟩,
             ⟨truncToInt (min (((300 : Int) : ℚ)) ((1 / 4 : ℚ) * ((1280 : Int) : ℚ))),
              truncToInt (fl64 (min (((300 : Int) : ℚ)) ((1 / 4 : ℚ) * ((1280 : Int) : ℚ))
                * fl64 (((110 : Int) : ℚ) / ((300 : Int) : ℚ))))⟩,
             true⟩⟩ : UpdateStep) :=
  ⟨by decide!, by decide!, by decide!,
   overlay_resized_once ⟨300, 110⟩ ⟨1280, 720⟩ 2 (by decide!) (by decide!)⟩

/-! ## Identity confidence gauge -/

theorem drawFaceMetrics_identity (fixed1 : ℚ → String) (face : Face)
    (bounding_box : Point × Point) (draw_face_id : Bool) (hc : face.complete) :
    ∃ front rest,
      drawFaceMetrics fixed1 face bounding_box draw_face_id = some (front ++
        DrawCall.text "identity" (id_content face.identity)
          (anchor (truncToInt bounding_box.1.x) (truncToInt bounding_box.1.y + 200))
          true white ::
        DrawCall.classifier "identity_confidence" face.identity.confidence
          (anchor (truncToInt bounding_box.1.x) (truncToInt bounding_box.1.y + 220))
          true :: rest) := by
  obtain ⟨h1, h2, h3⟩ := hc
  obtain ⟨⟨right, p1⟩, hr⟩ := drawExpressions_isSome fixed1 face.expressions
    (truncToInt bounding_box.2.x) EXPRESSIONS (truncToInt bounding_box.1.y) h1
  obtain ⟨⟨head, p2⟩, hh⟩ := drawHeadOrientationLoop_isSome fixed1 face.measurements
    (truncToInt bounding_box.2.x) false white HEAD_ANGLES p1 h3
  obtain ⟨emos, he, -, -, -⟩ := drawEmotions_layout face.emotions
    (truncToInt bounding_box.1.x) EMOTIONS (truncToInt bounding_box.1.y) h2
  obtain ⟨mood_call, cat_call, ht⟩ := drawFaceTail_eq face (truncToInt bounding_box.1.x)
    (truncToInt bounding_box.1.y + 20 * (EMOTIONS.length : Int))
  have e1 : truncToInt bounding_box.1.y + 20 * (EMOTIONS.length : Int) + spacing + spacing
      = truncToInt bounding_box.1.y + 200 := by
    have : EMOTIONS.length = 8 := rfl
    rw [this]
    simp only [spacing]
    omega
  have e2 : truncToInt bounding_box.1.y + 20 * (EMOTIONS.length : Int) + spacing + spacing
      + spacing = truncToInt bounding_box.1.y + 220 := by
    rw [e1]
    simp only [spacing]
    omega
  rw [e2, e1] at ht
  refine ⟨right ++ head ++
      (if draw_face_id then
        [DrawCall.text "ID" (to_string face.id)
          (anchor (truncToInt bounding_box.1.x) (truncToInt bounding_box.1.y + spacing))
          false ⟨255, 255, 255⟩]
       else []) ++ emos ++ [mood_call],
    [DrawCall.text "age" (age_content face.age)
       (anchor (truncToInt bounding_box.1.x) (truncToInt bounding_box.1.y + 220 + spacing))
       true white,
     DrawCall.classifier "age_confidence" face.age.confidence
       (anchor (truncToInt bounding_box.1.x)
         (truncToInt bounding_box.1.y + 220 + spacing + spacing)) true,
     cat_call], ?_⟩
  simp only [drawFaceMetrics, drawHeadOrientation, hr, hh, he, ht]
  simp only [List.append_assoc, List.singleton_append, List.cons_append, List.nil_append]

/-- C2, amended.  For every face with the identity `{id: -1, confidence: 0.8}` (score maps
complete), the bounding box `[(100, 100), (300, 400)]` and a frame of 1280 × 720:
`drawFaceMetrics` draws the text "identity: UNKNOWN" anchored at `(100, 300)` and then
calls `drawClassifierOutput` for "identity_confidence" at `(100, 320)` with the confidence
unchanged; `drawEqualizer` receives the magnitude 0.8 and blends the ten blocks of the
gauge at opacity 0.3 in gray, none at opacity 0.8: 0 of the 10 blocks are filled. -/
theorem identity_confidence_gauge (fixed1 : ℚ → String) (textWidth : String → Int)
    (face : Face) (draw_face_id : Bool) (hc : face.complete)
    (hid : face.identity.id = -1) (hconf : face.identity.confidence = 4 / 5) :
    (∃ front rest,
      drawFaceMetrics fixed1 face scenarioBox draw_face_id = some (front ++
        DrawCall.text "identity" "UNKNOWN" ⟨100, 300⟩ true white ::
        DrawCall.classifier "identity_confidence" (4 / 5) ⟨100, 320⟩ true :: rest)) ∧
    (DrawCall.text "identity" "UNKNOWN" ⟨100, 300⟩ true white).render textWidth 1280 720 =
      [Prim.putText "identity: UNKNOWN"
          (drawTextLoc textWidth "identity" ⟨100, 300⟩ true) outline 5,
       Prim.putText "identity: UNKNOWN"
          (drawTextLoc textWidth "identity" ⟨100, 300⟩ true) white 1] ∧
    drawClassifierOutput "identity_confidence" (4 / 5) ⟨100, 320⟩ true =
      ⟨"identity_confidence", 4 / 5, ⟨100, 320⟩, true, white⟩ ∧
    (DrawCall.classifier "identity_confidence" (4 / 5) ⟨100, 320⟩ true).render
        textWidth 1280 720 =
      drawEqualizer textWidth 1280 720 "identity_confidence" (4 / 5) ⟨100, 320⟩ true white ∧
    drawEqualizer textWidth 1280 720 "identity_confidence" (4 / 5) ⟨100, 320⟩ true white =
      (List.range 10).map (fun (k : Nat) =>
        Prim.blend ⟨100 - 10 * (k : Int), 310, 8, 10⟩ (3 / 10) gray) ++
      drawEqualizerLabel textWidth "identity_confidence" ⟨100, 320⟩ true := by
  have hcall : drawClassifierOutput "identity_confidence" (4 / 5) ⟨100, 320⟩ true =
      ⟨"identity_confidence", 4 / 5, ⟨100, 320⟩, true, white⟩ := by decide!
  have hblocks : drawEqualizerBlocks 1280 720 (4 / 5) ⟨100, 320⟩ true white =
      (List.range 10).map (fun (k : Nat) =>
        Prim.blend ⟨100 - 10 * (k : Int), 310, 8, 10⟩ (3 / 10) gray) := by decide!
  refine ⟨?_, ?_, hcall, ?_, ?_⟩
  · obtain ⟨front, rest, h⟩ := drawFaceMetrics_identity fixed1 face scenarioBox draw_face_id hc
    have hu : id_content face.identity = "UNKNOWN" := (id_content_unknown_iff _).mpr hid
    have hx : truncToInt scenarioBox.1.x = 100 := by decide!
    have hy : truncToInt scenarioBox.1.y = 100 := by decide!
    have ha1 : anchor 100 (100 + 200) = ⟨100, 300⟩ := by decide!
    have ha2 : anchor 100 (100 + 220) = ⟨100, 320⟩ := by decide!
    rw [hu, hconf, hx, hy, ha1, ha2] at h
    exact ⟨front, rest, h⟩
  · have hs : drawTextString "identity" "UNKNOWN" = "identity: UNKNOWN" := by decide
    simp only [DrawCall.render, drawText, hs]
  · simp only [DrawCall.render, hcall]
  · unfold drawEqualizer
    rw [hblocks]

/-- C2, witness of the amended statement: the face `scenarioFace`. -/
theorem identity_confidence_gauge_witness :
    scenarioFace.complete ∧ scenarioFace.identity.id = -1 ∧
    scenarioFace.identity.confidence = 4 / 5 ∧
    (∃ front rest,
      drawFaceMetrics (fun _ => "0.0") scenarioFace scenarioBox false = some (front ++
        DrawCall.text "identity" "UNKNOWN" ⟨100, 300⟩ true white ::
        DrawCall.classifier "identity_confidence" (4 / 5) ⟨100, 320⟩ true :: rest)) ∧
    drawEqualizer (fun s => 10 * (s.length : Int)) 1280 720 "identity_confidence" (4 / 5)
        ⟨100, 320⟩ true white =
      (List.range 10).map (fun (k : Nat) =>
        Prim.blend ⟨100 - 10 * (k : Int), 310, 8, 10⟩ (3 / 10) gray) ++
      drawEqualizerLabel (fun s => 10 * (s.length : Int)) "identity_confidence"
        ⟨100, 320⟩ true :=
  ⟨by simp [Face.complete, scenarioFace], rfl, rfl,
   (identity_confidence_gauge (fun _ => "0.0") (fun s => 10 * (s.length : Int)) scenarioFace
      false (by simp [Face.complete, scenarioFace]) rfl rfl).1,
   (identity_confidence_gauge (fun _ => "0.0") (fun s => 10 * (s.length : Int)) scenarioFace
      false (by simp [Face.complete, scenarioFace]) rfl rfl).2.2.2.2⟩

end Viz
